import Mathlib

/-!
Verification of the controlled-configuration overlay and the profile update
scheduler of the mihomo-party desktop client.

The configuration data is modelled as a JSON/YAML-like value tree (`JVal`);
a configuration object is an association list from string keys to values,
mirroring the order-preserving key semantics of JavaScript objects.

The functions `getControledMihomoConfig` and `patchControledMihomoConfig`
are shallow embeddings of the functions of the same names in
src/main/config/controledMihomo.ts, and `initProfileUpdater` /
`addProfileUpdater` embed the scheduler module (pure state passing replaces
the mutable module-level timer pool; timers are recorded explicitly so that
liveness and cancellation can be reasoned about).
-/

set_option maxHeartbeats 1000000

/-- A JSON/YAML-like value: null, booleans, numbers, strings, arrays and
objects.  Objects are association lists of key/value pairs, preserving
insertion order as JavaScript objects do. -/
inductive JVal where
  | null
  | bool (b : Bool)
  | num (n : Int)
  | str (s : String)
  | arr (xs : List JVal)
  | obj (fs : List (String × JVal))
deriving Repr

/-- The fields of a configuration object. -/
abbrev ConfigObj := List (String × JVal)

/-- JavaScript truthiness of a value. -/
def truthy : JVal → Bool
  | .null => false
  | .bool b => b
  | .num n => n != 0
  | .str s => s != ""
  | .arr _ => true
  | .obj _ => true

/-- Key lookup in an object field list; returns the first binding, as
JavaScript property access does. -/
def lookupKey (fs : List (String × JVal)) (k : String) : Option JVal :=
  match fs with
  | [] => none
  | (k₁, v) :: rest => if k₁ = k then some v else lookupKey rest k

/-- JavaScript property assignment on an object field list: replaces the
first binding of the key in place, or appends a new binding. -/
def setKey (fs : List (String × JVal)) (k : String) (v : JVal) :
    List (String × JVal) :=
  match fs with
  | [] => [(k, v)]
  | (k₁, v₁) :: rest =>
    if k₁ = k then (k, v) :: rest else (k₁, v₁) :: setKey rest k v

/-- JavaScript delete of a property: removes the binding of the key. -/
def delKey (fs : List (String × JVal)) (k : String) : List (String × JVal) :=
  match fs with
  | [] => []
  | (k₁, v) :: rest =>
    if k₁ = k then delKey rest k else (k₁, v) :: delKey rest k

/-- Property access through a value (optional chaining): only objects have
properties, every other value yields undefined. -/
def jGet (v : JVal) (k : String) : Option JVal :=
  match v with
  | .obj fs => lookupKey fs k
  | _ => none

/-- The bindings of the second object whose keys are absent from the
first: appended at the end of a merge, preserving their order. -/
def newKeys (a : List (String × JVal)) :
    List (String × JVal) → List (String × JVal)
  | [] => []
  | (k, v) :: rest =>
    if (lookupKey a k).isNone then (k, v) :: newKeys a rest
    else newKeys a rest

mutual

/-- Modelled from the spec: the deep-merge rule of the merge utility
(src/main/utils/merge.ts is not part of the provided sources).  For two
objects it recurses key-by-key; for two arrays or any non-object value the
right-hand (new) value replaces the left-hand value outright. -/
def deepMerge : JVal → JVal → JVal
  | .obj a, .obj b => .obj (mergeInto a b ++ newKeys a b)
  | _, r => r

/-- Merges the bindings of the second object into each binding of the
first, key by key. -/
def mergeInto : List (String × JVal) → List (String × JVal) →
    List (String × JVal)
  | [], _ => []
  | (k, v) :: rest, b =>
    match lookupKey b k with
    | some w => (k, deepMerge v w) :: mergeInto rest b
    | none => (k, v) :: mergeInto rest b

end

/-- Merge of two object field lists (the object case of `deepMerge`). -/
def mergeFields (a b : List (String × JVal)) : List (String × JVal) :=
  mergeInto a b ++ newKeys a b

/-- Modelled from the spec: the default dns block supplied by the
default-config collaborator (src/main/utils/template.ts is not part of the
provided sources).  The spec requires it to carry an ipv6 flag (the reset
check of the patch operation tests for its presence) and an enable flag;
the enable flag of the built-in default is true, and the block carries the
usual fake-ip resolver fields and a nameserver array. -/
def defaultDnsFields : List (String × JVal) :=
  [("enable", .bool true), ("ipv6", .bool false),
   ("enhanced-mode", .str "fake-ip"),
   ("fake-ip-range", .str "198.18.0.1/16"),
   ("use-hosts", .bool false), ("use-system-hosts", .bool false),
   ("nameserver", .arr [.str "https://doh.pub/dns-query"])]

/-- The default dns block as a value. -/
def defaultDns : JVal := .obj defaultDnsFields

/-- Modelled from the spec: the default sniffer block supplied by the
default-config collaborator. -/
def defaultSniffer : JVal :=
  .obj [("enable", .bool true),
        ("parse-pure-ip", .bool true)]

/-- Modelled from the spec: the built-in fallback configuration object
supplied by the default-config collaborator, holding the default dns and
sniffer blocks among ordinary passthrough keys. -/
def defaultControledMihomoConfig : ConfigObj :=
  [("mode", .str "rule"),
   ("mixed-port", .num 7890),
   ("dns", defaultDns),
   ("sniffer", defaultSniffer)]

/-- The application policy flags read from the app configuration at the
start of every patch (useNameserverPolicy, controlDns, controlSniff; the
latter two default to true when absent, which the embedding represents by
taking the already-defaulted values). -/
structure IAppConfig where
  useNameserverPolicy : Bool
  controlDns : Bool
  controlSniff : Bool
deriving Repr, DecidableEq

/-- The reset test of the dns step:
not cfg.dns, or cfg.dns?.ipv6 is undefined. -/
def dnsNeedsReset (cfg : ConfigObj) : Bool :=
  match lookupKey cfg "dns" with
  | none => true
  | some d => !truthy d || (jGet d "ipv6").isNone

/-- The JavaScript idiom x || \x7b\x7d applied to an optional property:
a missing or falsy value is replaced by an empty object. -/
def orEmptyObj (v : Option JVal) : JVal :=
  match v with
  | some x => if truthy x then x else .obj []
  | none => .obj []

/-- Property assignment through a value: on an object it sets the field;
on any other value the stored configuration is unchanged (assignment to a
property of a primitive does not alter the stored value). -/
def jSetField (v : JVal) (k : String) (w : JVal) : JVal :=
  match v with
  | .obj fs => .obj (setKey fs k w)
  | _ => v

/-- Optionally-chained delete of a nested property:
delete cfg?.k?.[sub] removes sub from the object stored at k, and does
nothing when k is absent or does not hold an object. -/
def jDelField (cfg : ConfigObj) (k sub : String) : ConfigObj :=
  match lookupKey cfg k with
  | some (.obj fs) => setKey cfg k (.obj (delKey fs sub))
  | _ => cfg

/-- The default-merge core of the dns step: remember the current enable
flag, deep-merge the default dns block into the current one (a falsy
current block is replaced by an empty object first), and restore the
remembered enable flag when it was defined. -/
def dnsApply (cfgA : ConfigObj) : ConfigObj :=
  let merged := deepMerge (orEmptyObj (lookupKey cfgA "dns")) defaultDns
  match (lookupKey cfgA "dns").bind (fun d => jGet d "enable") with
  | some e => setKey cfgA "dns" (jSetField merged "enable" e)
  | none => setKey cfgA "dns" merged

/-- The dns part of the patch operation (lines 25-37 of
controledMihomo.ts): with dns control enabled, reset the dns block to the
default when it is missing its ipv6 flag, then apply the default merge
with enable preservation; with dns control disabled, delete both the dns
and hosts blocks. -/
def dnsStep (app : IAppConfig) (cfg : ConfigObj) : ConfigObj :=
  if app.controlDns then
    dnsApply (if dnsNeedsReset cfg then setKey cfg "dns" defaultDns else cfg)
  else
    delKey (delKey cfg "dns") "hosts"

/-- The sniffer part of the patch operation (lines 39-46): with sniffer
control disabled, delete the sniffer block; with it enabled, install the
default sniffer block when none is present. -/
def snifferStep (app : IAppConfig) (cfg : ConfigObj) : ConfigObj :=
  if app.controlSniff then
    match lookupKey cfg "sniffer" with
    | some s => if truthy s then cfg else setKey cfg "sniffer" defaultSniffer
    | none => setKey cfg "sniffer" defaultSniffer
  else
    delKey cfg "sniffer"

/-- The hosts part of the patch operation (lines 48-50): a truthy hosts
block in the delta overwrites the current one outright. -/
def hostsStep (patch : ConfigObj) (cfg : ConfigObj) : ConfigObj :=
  match lookupKey patch "hosts" with
  | some h => if truthy h then setKey cfg "hosts" h else cfg
  | none => cfg

/-- The nameserver-policy part of the patch operation (lines 51-54): a
truthy dns nameserver-policy block in the delta overwrites the current
one (creating an empty dns object first when dns is absent or falsy). -/
def npStep (patch : ConfigObj) (cfg : ConfigObj) : ConfigObj :=
  match (lookupKey patch "dns").bind (fun d => jGet d "nameserver-policy") with
  | some np =>
    if truthy np then
      setKey cfg "dns"
        (jSetField (orEmptyObj (lookupKey cfg "dns")) "nameserver-policy" np)
    else cfg
  | none => cfg

/-- The nameserver-policy strip (lines 58-60): with useNameserverPolicy
disabled, delete dns.nameserver-policy from the result. -/
def npStrip (cfg : ConfigObj) : ConfigObj :=
  jDelField cfg "dns" "nameserver-policy"

/-- The platform strip (lines 61-63): on darwin, delete tun.device. -/
def tunStrip (cfg : ConfigObj) : ConfigObj :=
  jDelField cfg "tun" "device"

/-- The two final strips of the patch operation. -/
def stripStep (app : IAppConfig) (isDarwin : Bool) (cfg : ConfigObj) :
    ConfigObj :=
  let c := if app.useNameserverPolicy then cfg else npStrip cfg
  if isDarwin then tunStrip c else c

/-- Shallow embedding of patchControledMihomoConfig
(src/main/config/controledMihomo.ts, lines 21-66), as the transformation
it applies to the in-memory configuration object: the dns and sniffer
policy steps, the hosts and nameserver-policy overwrites taken from the
delta, the deep merge of the delta, and the final strips.  The regenerate
and persist side effects are outside the state transformation. -/
def patchControledMihomoConfig (app : IAppConfig) (isDarwin : Bool)
    (cfg patch : ConfigObj) : ConfigObj :=
  stripStep app isDarwin
    (mergeFields (npStep patch (hostsStep patch (snifferStep app (dnsStep app cfg)))) patch)

/-- JavaScript typeof x === "object": true for null, arrays and objects. -/
def jsTypeofIsObject : JVal → Bool
  | .null => true
  | .arr _ => true
  | .obj _ => true
  | _ => false

/-- Shallow embedding of getControledMihomoConfig
(src/main/config/controledMihomo.ts, lines 11-19).  The cache is the
module-level variable (none = not yet assigned); disk is the combined
outcome of readFile and yaml.parse: error for a missing file or malformed
text, ok v for a successful parse (null for an empty document).  Returns
the value handed to the caller, or the propagated error. -/
def getControledMihomoConfig (force : Bool) (cache : Option JVal)
    (disk : Except Unit JVal) : Except Unit JVal :=
  let cacheFalsy : Bool :=
    match cache with
    | none => true
    | some v => !truthy v
  let loaded : Except Unit JVal :=
    if force || cacheFalsy then
      match disk with
      | .error e => .error e
      | .ok v =>
        .ok (if truthy v then v else .obj defaultControledMihomoConfig)
    else
      .ok (cache.getD .null)
  match loaded with
  | .error e => .error e
  | .ok c => .ok (if jsTypeofIsObject c then c else .obj defaultControledMihomoConfig)

/-- A profile item: identity, type (remote or local), subscription url and
auto-update interval in minutes (0 also stands for an absent interval;
both are falsy in the source guard). -/
structure IProfileItem where
  id : String
  type : String
  url : String
  interval : Nat
deriving Repr, DecidableEq

/-- The designated placeholder profile id of the user subscription. -/
def USER_SUBSCRIPTION_ID : String := "user-subscription-meta"

/-- The sentinel empty subscription url marking a not-yet-configured user
subscription. -/
def emptySubscriptionUrl : String := "https://example.com/empty-subscription"

/-- The placeholder test of the scheduler: the item is the user
subscription bound to the sentinel empty url. -/
def isPlaceholder (item : IProfileItem) : Bool :=
  item.id = USER_SUBSCRIPTION_ID && item.url = emptySubscriptionUrl

/-- The guard under which the scheduler acts on an item at all: remote
type and a truthy interval. -/
def schedulable (item : IProfileItem) : Bool :=
  item.type = "remote" && item.interval != 0

/-- A scheduled one-shot timer: its handle, the profile id it refreshes
and its delay in milliseconds. -/
structure Timer where
  handle : Nat
  profId : String
  delay : Nat
deriving Repr, DecidableEq

/-- The scheduler state: the module-level intervalPool mapping profile ids
to timer handles, the set of live (scheduled, not yet cancelled) timers,
and a counter supplying fresh handles. -/
structure SchedState where
  pool : List (String × Nat)
  live : List Timer
  nextHandle : Nat
deriving Repr, DecidableEq

/-- The initial scheduler state: empty pool, no live timers. -/
def initialSchedState : SchedState := SchedState.mk [] [] 0

/-- Key lookup in the interval pool. -/
def lookupPool (fs : List (String × Nat)) (k : String) : Option Nat :=
  match fs with
  | [] => none
  | (k₁, v) :: rest => if k₁ = k then some v else lookupPool rest k

/-- Pool entry assignment, replacing in place or appending. -/
def setPool (fs : List (String × Nat)) (k : String) (v : Nat) :
    List (String × Nat) :=
  match fs with
  | [] => [(k, v)]
  | (k₁, v₁) :: rest =>
    if k₁ = k then (k, v) :: rest else (k₁, v₁) :: setPool rest k v

/-- setTimeout followed by the pool assignment: creates a fresh live
timer for the profile and stores its handle in the pool. -/
def schedule (s : SchedState) (pid : String) (delay : Nat) : SchedState :=
  SchedState.mk (setPool s.pool pid s.nextHandle)
    (Timer.mk s.nextHandle pid delay :: s.live) (s.nextHandle + 1)

/-- clearTimeout: removes the timer with the given handle from the live
set (the pool entry is untouched). -/
def clearTimer (s : SchedState) (h : Nat) : SchedState :=
  SchedState.mk s.pool (s.live.filter (fun t => t.handle ≠ h)) s.nextHandle

/-- Shallow embedding of addProfileUpdater (the register operation of the
profile update scheduler): for a remote item with a truthy interval that
is not the sentinel placeholder, cancel the pooled timer for its id if
one exists, then schedule a fresh one-shot timer; otherwise do nothing. -/
def addProfileUpdater (item : IProfileItem) (s : SchedState) : SchedState :=
  if schedulable item then
    if isPlaceholder item then s
    else
      let s₁ :=
        match lookupPool s.pool item.id with
        | some h => clearTimer s h
        | none => s
      schedule s₁ item.id (item.interval * 60 * 1000)
  else s

/-- One step of the startup loop of initProfileUpdater over the
non-current items: schedule a timer and trigger one immediate refresh,
skipping non-remote items, zero intervals and the sentinel placeholder.
The second component accumulates the ids refreshed immediately. -/
def initStep (acc : SchedState × List String) (item : IProfileItem) :
    SchedState × List String :=
  if schedulable item then
    if isPlaceholder item then acc
    else (schedule acc.1 item.id (item.interval * 60 * 1000),
          acc.2 ++ [item.id])
  else acc

/-- Shallow embedding of initProfileUpdater: iterates over the items that
are not current, then handles the current item with a 10 second skew,
returning early when the current item is the sentinel placeholder.
Returns the final scheduler state and the ids refreshed immediately. -/
def initProfileUpdater (items : List IProfileItem) (current : String)
    (currentItem : Option IProfileItem) (s : SchedState) :
    SchedState × List String :=
  let acc := (items.filter (fun i => i.id ≠ current)).foldl initStep (s, [])
  match currentItem with
  | some ci =>
    if schedulable ci then
      if isPlaceholder ci then acc
      else (schedule acc.1 ci.id (ci.interval * 60 * 1000 + 10000),
            acc.2 ++ [ci.id])
    else acc
  | none => acc

/-- The value a merge assigns at a key present in the left object. -/
def mergeVal (b : List (String × JVal)) (k : String) (v : JVal) : JVal :=
  match lookupKey b k with
  | some w => deepMerge v w
  | none => v

/-- Well-formedness of a value: every object in the tree has pairwise
distinct keys, as JavaScript objects always do. -/
inductive WFVal : JVal → Prop where
  | null : WFVal .null
  | bool (b : Bool) : WFVal (.bool b)
  | num (n : Int) : WFVal (.num n)
  | str (s : String) : WFVal (.str s)
  | arr (xs : List JVal) : WFVal (.arr xs)
  | obj (fs : List (String × JVal)) : (fs.map Prod.fst).Nodup →
      (∀ p ∈ fs, WFVal p.2) → WFVal (.obj fs)

/-- Whether a value is an object. -/
def isObjB : JVal → Bool
  | .obj _ => true
  | _ => false

/-- The number of live timers refreshing a given profile id. -/
def countLiveFor (s : SchedState) (pid : String) : Nat :=
  (s.live.filter (fun t => t.profId = pid)).length

/-- The scheduler invariant maintained by the register operation: every
live timer is the one recorded in the pool for its profile id, handles
are below the fresh-handle counter, and handles are pairwise distinct. -/
def SchedInv (s : SchedState) : Prop :=
  (∀ t ∈ s.live, lookupPool s.pool t.profId = some t.handle) ∧
  (∀ t ∈ s.live, t.handle < s.nextHandle) ∧
  s.live.Pairwise (fun t₁ t₂ => t₁.handle ≠ t₂.handle)

/-- Applies a sequence of register operations in order. -/
def applyRegs (ps : List IProfileItem) (s : SchedState) : SchedState :=
  ps.foldl (fun st p => addProfileUpdater p st) s

/-- Whether a read result is a successful return carrying an object-typed
value. -/
def isOkObject : Except Unit JVal → Bool
  | .ok v => jsTypeofIsObject v
  | .error _ => false

/-- The nameserver-policy binding inside the dns block of a config. -/
def dnsNameserverPolicy (cfg : ConfigObj) : Option JVal :=
  match lookupKey cfg "dns" with
  | some (.obj ds) => lookupKey ds "nameserver-policy"
  | _ => none

/-- The dns block of the config is an object whose enable binding is the
boolean true. -/
def DnsEnableTrue (cfg : ConfigObj) : Prop :=
  ∃ fs, lookupKey cfg "dns" = some (JVal.obj fs) ∧
    lookupKey fs "enable" = some (.bool true)

/-- Every binding of the list is unchanged when the bindings of b are
merged into it once more. -/
def Absorbed (b l : List (String × JVal)) : Prop :=
  ∀ p ∈ l, ∀ w, lookupKey b p.1 = some w → deepMerge p.2 w = p.2

/-- The shape of the dns field list after the default-merge step: it
splits at a first enable binding whose flanks absorb a repeated default
merge, and it binds every key of the default dns block. -/
def GoodDns (E : List (String × JVal)) : Prop :=
  (∃ u e t, E = u ++ ("enable", e) :: t ∧ (∀ p ∈ u, p.1 ≠ "enable") ∧
    Absorbed defaultDnsFields u ∧ Absorbed defaultDnsFields t) ∧
  (∀ q ∈ defaultDnsFields, (lookupKey E q.1).isSome)

theorem deepMerge_obj_obj (a b : List (String × JVal)) :
    deepMerge (.obj a) (.obj b) = .obj (mergeFields a b) := by
  simp [deepMerge, mergeFields]

theorem lookupKey_setKey_self (l : ConfigObj) (k : String) (v : JVal) :
    lookupKey (setKey l k v) k = some v := by
  induction l with
  | nil => simp [setKey, lookupKey]
  | cons p rest ih =>
    obtain ⟨k₁, v₁⟩ := p
    by_cases h : k₁ = k
    · simp [setKey, lookupKey, h]
    · simp [setKey, lookupKey, h, ih]

theorem lookupKey_setKey_ne (l : ConfigObj) (k k₁ : String) (v : JVal)
    (h : k ≠ k₁) : lookupKey (setKey l k v) k₁ = lookupKey l k₁ := by
  induction l with
  | nil => simp [setKey, lookupKey, h]
  | cons p rest ih =>
    obtain ⟨k₂, v₂⟩ := p
    by_cases h₂ : k₂ = k
    · subst h₂; simp [setKey, lookupKey, h]
    · simp [setKey, lookupKey, h₂, ih]

theorem lookupKey_delKey_self (l : ConfigObj) (k : String) :
    lookupKey (delKey l k) k = none := by
  induction l with
  | nil => simp [delKey, lookupKey]
  | cons p rest ih =>
    obtain ⟨k₁, v₁⟩ := p
    by_cases h : k₁ = k
    · simpa [delKey, lookupKey, h] using ih
    · simpa [delKey, lookupKey, h] using ih

theorem lookupKey_delKey_ne (l : ConfigObj) (k k₁ : String) (h : k ≠ k₁) :
    lookupKey (delKey l k) k₁ = lookupKey l k₁ := by
  induction l with
  | nil => simp [delKey, lookupKey]
  | cons p rest ih =>
    obtain ⟨k₂, v₂⟩ := p
    by_cases h₂ : k₂ = k
    · simp [delKey, lookupKey, h₂, h, ih]
    · by_cases h₃ : k₂ = k₁
      · simp [delKey, lookupKey, h₂, h₃, Ne.symm h]
      · simp [delKey, lookupKey, h₂, h₃, ih]

theorem delKey_eq_self_of_none (l : ConfigObj) (k : String)
    (h : lookupKey l k = none) : delKey l k = l := by
  induction l with
  | nil => simp [delKey]
  | cons p rest ih =>
    obtain ⟨k₁, v₁⟩ := p
    by_cases h₁ : k₁ = k
    · simp [lookupKey, h₁] at h
    · simp [lookupKey, h₁] at h
      simp [delKey, h₁, ih h]

theorem delKey_delKey (l : ConfigObj) (k : String) :
    delKey (delKey l k) k = delKey l k :=
  delKey_eq_self_of_none _ _ (lookupKey_delKey_self l k)

theorem setKey_eq_self_of_lookup (l : ConfigObj) (k : String) (v : JVal)
    (h : lookupKey l k = some v) : setKey l k v = l := by
  induction l with
  | nil => simp [lookupKey] at h
  | cons p rest ih =>
    obtain ⟨k₁, v₁⟩ := p
    by_cases h₁ : k₁ = k
    · subst h₁
      simp [lookupKey] at h
      simp [setKey, h]
    · simp [lookupKey, h₁] at h
      simp [setKey, h₁, ih h]

theorem setKey_setKey_same (l : ConfigObj) (k : String) (v w : JVal) :
    setKey (setKey l k v) k w = setKey l k w := by
  induction l with
  | nil => simp [setKey]
  | cons p rest ih =>
    obtain ⟨k₁, v₁⟩ := p
    by_cases h₁ : k₁ = k
    · simp [setKey, h₁]
    · simp [setKey, h₁, ih]

theorem mergeInto_cons (k : String) (v : JVal) (rest b : ConfigObj) :
    mergeInto ((k, v) :: rest) b = (k, mergeVal b k v) :: mergeInto rest b := by
  cases h : lookupKey b k <;> simp [mergeInto, mergeVal, h]

theorem mergeInto_nil_right (l : ConfigObj) : mergeInto l [] = l := by
  induction l with
  | nil => simp [mergeInto]
  | cons p rest ih =>
    obtain ⟨k, v⟩ := p
    simp [mergeInto_cons, mergeVal, lookupKey, ih]

theorem mergeFields_nil_right (l : ConfigObj) : mergeFields l [] = l := by
  simp [mergeFields, mergeInto_nil_right, newKeys]

theorem lookupKey_append (l r : ConfigObj) (k : String) :
    lookupKey (l ++ r) k = (lookupKey l k).or (lookupKey r k) := by
  induction l with
  | nil => simp [lookupKey]
  | cons p rest ih =>
    obtain ⟨k₁, v₁⟩ := p
    by_cases h : k₁ = k
    · simp [lookupKey, h]
    · simp [lookupKey, h, ih]

theorem lookupKey_mergeInto (a b : ConfigObj) (k : String) :
    lookupKey (mergeInto a b) k =
      (lookupKey a k).map (fun v => mergeVal b k v) := by
  induction a with
  | nil => simp [mergeInto, lookupKey]
  | cons p rest ih =>
    obtain ⟨k₁, v₁⟩ := p
    by_cases h : k₁ = k
    · simp [mergeInto_cons, lookupKey, h]
    · simp [mergeInto_cons, lookupKey, h, ih]

theorem lookupKey_newKeys_of_none (a b : ConfigObj) (k : String)
    (h : lookupKey a k = none) :
    lookupKey (newKeys a b) k = lookupKey b k := by
  induction b with
  | nil => simp [newKeys]
  | cons p rest ih =>
    obtain ⟨k₁, v₁⟩ := p
    by_cases h₁ : k₁ = k
    · subst h₁
      simp [newKeys, lookupKey, h, ih]
    · cases h₂ : (lookupKey a k₁).isNone <;>
        simp [newKeys, lookupKey, h₁, h₂, ih]

theorem lookupKey_newKeys_of_some (a b : ConfigObj) (k : String) (v : JVal)
    (h : lookupKey a k = some v) :
    lookupKey (newKeys a b) k = none := by
  induction b with
  | nil => simp [newKeys, lookupKey]
  | cons p rest ih =>
    obtain ⟨k₁, v₁⟩ := p
    by_cases h₁ : k₁ = k
    · subst h₁
      simp [newKeys, lookupKey, h, ih]
    · cases h₂ : (lookupKey a k₁).isNone <;>
        simp [newKeys, lookupKey, h₁, h₂, ih]

/-- The key characterization of a merge: keys of the left object keep
their position and get the merged value; keys only in the right object
are looked up there. -/
theorem lookupKey_mergeFields (a b : ConfigObj) (k : String) :
    lookupKey (mergeFields a b) k =
      match lookupKey a k with
      | some v => some (mergeVal b k v)
      | none => lookupKey b k := by
  rw [mergeFields, lookupKey_append, lookupKey_mergeInto]
  cases h : lookupKey a k with
  | none => simp [lookupKey_newKeys_of_none a b k h]
  | some v => simp [lookupKey_newKeys_of_some a b k v h]

theorem sizeOf_snd_lt_obj {fs : List (String × JVal)} {k : String} {v : JVal}
    (hp : (k, v) ∈ fs) : sizeOf v < sizeOf (JVal.obj fs) := by
  have h := List.sizeOf_lt_of_mem hp
  simp at h ⊢
  omega

theorem lookupKey_isSome_of_mem {fs : ConfigObj} {p : String × JVal}
    (hp : p ∈ fs) : (lookupKey fs p.1).isSome := by
  induction fs with
  | nil => simp at hp
  | cons q rest ih =>
    obtain ⟨k₁, v₁⟩ := q
    rcases List.mem_cons.mp hp with h | h
    · subst h; simp [lookupKey]
    · by_cases hk : k₁ = p.1
      · simp [lookupKey, hk]
      · simp [lookupKey, hk, ih h]

theorem lookupKey_of_nodup_mem {fs : ConfigObj}
    (hn : (fs.map Prod.fst).Nodup) {k : String} {v : JVal}
    (hm : (k, v) ∈ fs) : lookupKey fs k = some v := by
  induction fs with
  | nil => simp at hm
  | cons q rest ih =>
    obtain ⟨k₁, v₁⟩ := q
    rw [List.map_cons, List.nodup_cons] at hn
    obtain ⟨hnotin, hrest⟩ := hn
    rcases List.mem_cons.mp hm with h | h
    · injection h with h₁ h₂
      simp [lookupKey, h₁, h₂]
    · by_cases hk : k₁ = k
      · exfalso
        apply hnotin
        rw [hk]
        exact List.mem_map.mpr ⟨(k, v), h, rfl⟩
      · simp [lookupKey, hk, ih hrest h]

theorem mem_of_lookupKey {fs : ConfigObj} {k : String} {v : JVal}
    (h : lookupKey fs k = some v) : (k, v) ∈ fs := by
  induction fs with
  | nil => simp [lookupKey] at h
  | cons q rest ih =>
    obtain ⟨k₁, v₁⟩ := q
    by_cases hk : k₁ = k
    · subst hk
      simp [lookupKey] at h
      simp [h]
    · simp [lookupKey, hk] at h
      exact List.mem_cons_of_mem _ (ih h)

theorem mem_mergeInto {a b : ConfigObj} {p : String × JVal}
    (hp : p ∈ mergeInto a b) :
    ∃ v₀, (p.1, v₀) ∈ a ∧ p.2 = mergeVal b p.1 v₀ := by
  induction a with
  | nil => simp [mergeInto] at hp
  | cons q rest ih =>
    obtain ⟨k₁, v₁⟩ := q
    rw [mergeInto_cons] at hp
    rcases List.mem_cons.mp hp with h | h
    · exact ⟨v₁, by simp [h], by simp [h]⟩
    · obtain ⟨v₀, h₁, h₂⟩ := ih h
      exact ⟨v₀, List.mem_cons_of_mem _ h₁, h₂⟩

theorem mem_newKeys {a b : ConfigObj} {p : String × JVal}
    (hp : p ∈ newKeys a b) : p ∈ b ∧ lookupKey a p.1 = none := by
  induction b with
  | nil => simp [newKeys] at hp
  | cons q rest ih =>
    obtain ⟨k₁, v₁⟩ := q
    by_cases h₁ : (lookupKey a k₁).isNone
    · simp [newKeys, h₁] at hp
      rcases hp with h | h
      · refine ⟨by simp [h], ?_⟩
        obtain ⟨hk, hv⟩ := Prod.mk.injEq .. ▸ h
        rw [hk]
        exact Option.isNone_iff_eq_none.mp h₁
      · obtain ⟨hm, hl⟩ := ih h
        exact ⟨List.mem_cons_of_mem _ hm, hl⟩
    · simp [newKeys, h₁] at hp
      obtain ⟨hm, hl⟩ := ih hp
      exact ⟨List.mem_cons_of_mem _ hm, hl⟩

theorem newKeys_eq_nil {a b : ConfigObj}
    (h : ∀ p ∈ b, (lookupKey a p.1).isSome) : newKeys a b = [] := by
  induction b with
  | nil => simp [newKeys]
  | cons q rest ih =>
    obtain ⟨k₁, v₁⟩ := q
    have h₁ : (lookupKey a k₁).isSome := h (k₁, v₁) (by simp)
    have h₂ : ¬ (lookupKey a k₁).isNone := by
      cases hl : lookupKey a k₁ <;> simp [hl] at h₁ ⊢
    simp [newKeys, h₂]
    exact ih (fun p hp => h p (List.mem_cons_of_mem _ hp))

theorem mergeInto_eq_self {a b : ConfigObj}
    (h : ∀ p ∈ a, ∀ w, lookupKey b p.1 = some w → deepMerge p.2 w = p.2) :
    mergeInto a b = a := by
  induction a with
  | nil => simp [mergeInto]
  | cons q rest ih =>
    obtain ⟨k₁, v₁⟩ := q
    rw [mergeInto_cons]
    have hv : mergeVal b k₁ v₁ = v₁ := by
      unfold mergeVal
      cases hl : lookupKey b k₁ with
      | none => rfl
      | some w => exact h (k₁, v₁) (by simp) w hl
    rw [hv, ih (fun p hp w hw => h p (List.mem_cons_of_mem _ hp) w hw)]

theorem deepMerge_eq_right {v w : JVal}
    (h : isObjB v = false ∨ isObjB w = false) : deepMerge v w = w := by
  cases v <;> cases w <;> simp [isObjB] at h ⊢ <;> simp [deepMerge]

theorem deepMerge_self_aux :
    ∀ (n : Nat) (v : JVal), sizeOf v ≤ n → WFVal v → deepMerge v v = v := by
  intro n
  induction n with
  | zero =>
    intro v hs _
    exfalso
    cases v <;> simp at hs
  | succ n ih =>
    intro v hs hw
    cases hw with
    | null => simp [deepMerge]
    | bool b => simp [deepMerge]
    | num m => simp [deepMerge]
    | str s => simp [deepMerge]
    | arr xs => simp [deepMerge]
    | obj fs hn hwf =>
      rw [deepMerge_obj_obj]
      congr 1
      have hnew : newKeys fs fs = [] :=
        newKeys_eq_nil (fun p hp => lookupKey_isSome_of_mem hp)
      have hmi : mergeInto fs fs = fs := by
        apply mergeInto_eq_self
        intro p hp w hw2
        obtain ⟨k, v⟩ := p
        have hl := lookupKey_of_nodup_mem hn hp
        rw [hl] at hw2
        injection hw2 with hw3
        rw [← hw3]
        apply ih
        · have hlt := sizeOf_snd_lt_obj hp
          simp at hs hlt ⊢
          omega
        · exact hwf (k, v) hp
      rw [mergeFields, hmi, hnew, List.append_nil]

theorem deepMerge_self (v : JVal) (h : WFVal v) : deepMerge v v = v :=
  deepMerge_self_aux (sizeOf v) v (le_refl _) h

theorem deepMerge_absorb_aux :
    ∀ (n : Nat) (w : JVal), sizeOf w ≤ n → WFVal w →
      ∀ v, deepMerge (deepMerge v w) w = deepMerge v w := by
  intro n
  induction n with
  | zero =>
    intro w hs _ v
    exfalso
    cases w <;> simp at hs
  | succ n ih =>
    intro w hs hw v
    by_cases hwo : isObjB w = false
    · rw [deepMerge_eq_right (Or.inr hwo), deepMerge_eq_right (Or.inr hwo)]
    · cases w with
      | obj bs =>
        by_cases hvo : isObjB v = false
        · rw [deepMerge_eq_right (Or.inl hvo), deepMerge_self _ hw]
        · cases v with
          | obj afs =>
            rw [deepMerge_obj_obj, deepMerge_obj_obj]
            congr 1
            have hnew : newKeys (mergeFields afs bs) bs = [] := by
              apply newKeys_eq_nil
              intro p hp
              rw [lookupKey_mergeFields]
              cases hl : lookupKey afs p.1 with
              | some v₀ => simp
              | none =>
                simp
                exact lookupKey_isSome_of_mem hp
            have hmi : mergeInto (mergeFields afs bs) bs = mergeFields afs bs := by
              apply mergeInto_eq_self
              intro p hp w₁ hw₁
              rcases List.mem_append.mp hp with hp₁ | hp₂
              · obtain ⟨v₀, hv₀m, hv₀e⟩ := mem_mergeInto hp₁
                rw [hv₀e]
                unfold mergeVal
                rw [hw₁]
                apply ih
                · have hlt := sizeOf_snd_lt_obj (mem_of_lookupKey hw₁)
                  simp at hs hlt
                  omega
                · cases hw with
                  | obj _ hnb hwfb => exact hwfb _ (mem_of_lookupKey hw₁)
              · obtain ⟨hmem, hnone⟩ := mem_newKeys hp₂
                cases hw with
                | obj _ hnb hwfb =>
                  obtain ⟨k, v₁⟩ := p
                  have hl := lookupKey_of_nodup_mem hnb hmem
                  rw [hl] at hw₁
                  injection hw₁ with hw₂
                  rw [← hw₂]
                  apply deepMerge_self
                  exact hwfb (k, v₁) hmem
            rw [mergeFields, hmi, hnew, List.append_nil]
          | null => simp [isObjB] at hvo
          | bool b => simp [isObjB] at hvo
          | num m => simp [isObjB] at hvo
          | str s => simp [isObjB] at hvo
          | arr xs => simp [isObjB] at hvo
      | null => simp [isObjB] at hwo
      | bool b => simp [isObjB] at hwo
      | num m => simp [isObjB] at hwo
      | str s => simp [isObjB] at hwo
      | arr xs => simp [isObjB] at hwo

theorem deepMerge_absorb {w : JVal} (hw : WFVal w) (v : JVal) :
    deepMerge (deepMerge v w) w = deepMerge v w :=
  deepMerge_absorb_aux (sizeOf w) w (le_refl _) hw v

theorem lookupPool_setPool_self (l : List (String × Nat)) (k : String)
    (v : Nat) : lookupPool (setPool l k v) k = some v := by
  induction l with
  | nil => simp [setPool, lookupPool]
  | cons p rest ih =>
    obtain ⟨k₁, v₁⟩ := p
    by_cases h : k₁ = k
    · simp [setPool, lookupPool, h]
    · simp [setPool, lookupPool, h, ih]

theorem lookupPool_setPool_ne (l : List (String × Nat)) (k k₁ : String)
    (v : Nat) (h : k ≠ k₁) :
    lookupPool (setPool l k v) k₁ = lookupPool l k₁ := by
  induction l with
  | nil => simp [setPool, lookupPool, h]
  | cons p rest ih =>
    obtain ⟨k₂, v₂⟩ := p
    by_cases h₂ : k₂ = k
    · simp [setPool, lookupPool, h₂, h]
    · simp [setPool, lookupPool, h₂, ih]

theorem schedInv_initial : SchedInv initialSchedState := by
  refine ⟨?_, ?_, ?_⟩ <;> simp [initialSchedState]

theorem live_ne_of_schedInv {s : SchedState} (h : SchedInv s)
    (item : IProfileItem) :
    ∀ t ∈ (match lookupPool s.pool item.id with
           | some h₀ => clearTimer s h₀
           | none => s).live, t.profId ≠ item.id := by
  obtain ⟨h₁, h₂, h₃⟩ := h
  cases hl : lookupPool s.pool item.id with
  | none =>
    intro t ht hne
    have := h₁ t ht
    rw [hne] at this
    rw [hl] at this
    exact Option.noConfusion this
  | some h₀ =>
    intro t ht hne
    simp [clearTimer, List.mem_filter] at ht
    obtain ⟨htl, hth⟩ := ht
    have := h₁ t htl
    rw [hne, hl] at this
    injection this with this
    exact hth this.symm

theorem schedInv_addProfileUpdater {s : SchedState} (h : SchedInv s)
    (item : IProfileItem) : SchedInv (addProfileUpdater item s) := by
  unfold addProfileUpdater
  by_cases hs : schedulable item = true
  · simp [hs]
    by_cases hp : isPlaceholder item = true
    · simp [hp]; exact h
    · simp [hp]
      have hne := live_ne_of_schedInv h item
      obtain ⟨h₁, h₂, h₃⟩ := h
      cases hl : lookupPool s.pool item.id with
      | none =>
        simp [hl] at hne ⊢
        refine ⟨?_, ?_, ?_⟩
        · intro t ht
          rcases List.mem_cons.mp ht with hh | hh
          · rw [hh]
            simp [schedule, lookupPool_setPool_self]
          · simp [schedule]
            rw [lookupPool_setPool_ne _ _ _ _ (fun he => hne t hh he.symm)]
            exact h₁ t hh
        · intro t ht
          rcases List.mem_cons.mp ht with hh | hh
          · rw [hh]; simp [schedule]
          · simp [schedule]
            exact Nat.lt_succ_of_lt (h₂ t hh)
        · simp [schedule, List.pairwise_cons]
          refine ⟨?_, h₃⟩
          intro t ht he
          exact absurd he.symm (Nat.ne_of_lt (h₂ t ht))
      | some h₀ =>
        simp [hl, clearTimer, List.mem_filter] at hne ⊢
        refine ⟨?_, ?_, ?_⟩
        · intro t ht
          rcases List.mem_cons.mp ht with hh | hh
          · rw [hh]
            simp [schedule, clearTimer, lookupPool_setPool_self]
        
          · simp [schedule, clearTimer] at hh ⊢
            rw [lookupPool_setPool_ne _ _ _ _ (fun he => hne t hh.1 hh.2 he.symm)]
            exact h₁ t hh.1
        · intro t ht
          rcases List.mem_cons.mp ht with hh | hh
          · rw [hh]; simp [schedule, clearTimer]
          · simp [schedule, clearTimer] at hh ⊢
            exact Nat.lt_succ_of_lt (h₂ t hh.1)
        · simp [schedule, clearTimer, List.pairwise_cons]
          refine ⟨?_, ?_⟩
          · intro t ht _ he
            exact absurd he.symm (Nat.ne_of_lt (h₂ t ht))
          · exact List.Pairwise.sublist (List.filter_sublist _) h₃
  · simp [hs]
    exact h

theorem countLiveFor_le_one_of_schedInv {s : SchedState} (h : SchedInv s)
    (pid : String) : countLiveFor s pid ≤ 1 := by
  obtain ⟨h₁, _, h₃⟩ := h
  unfold countLiveFor
  cases hf : s.live.filter (fun t => t.profId = pid) with
  | nil => simp
  | cons a tail =>
    cases tail with
    | nil => simp
    | cons b rest =>
      exfalso
      have hpw : (a :: b :: rest).Pairwise
          (fun t₁ t₂ => t₁.handle ≠ t₂.handle) := by
        rw [← hf]
        exact List.Pairwise.sublist (List.filter_sublist _) h₃
      have hab : a.handle ≠ b.handle := (List.pairwise_cons.mp hpw).1 b (by simp)
      have ha : a ∈ s.live ∧ a.profId = pid := by
        have hm : a ∈ s.live.filter (fun t => t.profId = pid) := by
          rw [hf]; simp
        simpa [List.mem_filter] using hm
      have hb : b ∈ s.live ∧ b.profId = pid := by
        have hm : b ∈ s.live.filter (fun t => t.profId = pid) := by
          rw [hf]; simp
        simpa [List.mem_filter] using hm
      have hla := h₁ a ha.1
      have hlb := h₁ b hb.1
      rw [ha.2] at hla
      rw [hb.2] at hlb
      rw [hla] at hlb
      injection hlb with hlb
      exact hab hlb

theorem countLiveFor_addProfileUpdater {s : SchedState} (h : SchedInv s)
    (item : IProfileItem) (hs : schedulable item = true)
    (hp : isPlaceholder item = false) :
    countLiveFor (addProfileUpdater item s) item.id = 1 := by
  have hne := live_ne_of_schedInv h item
  unfold addProfileUpdater
  cases hl : lookupPool s.pool item.id with
  | none =>
    simp [hl] at hne
    simp [hs, hp, hl, countLiveFor, schedule, List.filter_eq_nil_iff]
    exact fun t ht => hne t ht
  | some h₀ =>
    simp [hl, clearTimer, List.mem_filter] at hne
    simp [hs, hp, hl, countLiveFor, schedule, clearTimer]
    intro a ha hprof
    by_contra hh
    exact hne a ha hh hprof

theorem schedInv_applyRegs (ps : List IProfileItem) :
    ∀ s, SchedInv s → SchedInv (applyRegs ps s) := by
  induction ps with
  | nil => intro s h; exact h
  | cons p rest ih =>
    intro s h
    exact ih _ (schedInv_addProfileUpdater h p)

theorem initFold_placeholder (s : SchedState) (items : List IProfileItem) :
    ∀ (acc : SchedState × List String),
      (∀ i ∈ items, i.id = USER_SUBSCRIPTION_ID →
        i.url = emptySubscriptionUrl) →
      USER_SUBSCRIPTION_ID ∉ acc.2 →
      (∀ t ∈ acc.1.live, t ∈ s.live ∨ t.profId ≠ USER_SUBSCRIPTION_ID) →
      lookupPool acc.1.pool USER_SUBSCRIPTION_ID =
        lookupPool s.pool USER_SUBSCRIPTION_ID →
      USER_SUBSCRIPTION_ID ∉ (items.foldl initStep acc).2 ∧
      (∀ t ∈ (items.foldl initStep acc).1.live,
        t ∈ s.live ∨ t.profId ≠ USER_SUBSCRIPTION_ID) ∧
      lookupPool (items.foldl initStep acc).1.pool USER_SUBSCRIPTION_ID =
        lookupPool s.pool USER_SUBSCRIPTION_ID := by
  induction items with
  | nil => intro acc _ h1 h2 h3; exact ⟨h1, h2, h3⟩
  | cons item rest ih =>
    intro acc hh h1 h2 h3
    rw [List.foldl_cons]
    apply ih _ (fun i hi => hh i (List.mem_cons_of_mem _ hi))
    · by_cases hs : schedulable item = true
      · by_cases hp : isPlaceholder item = true
        · simpa [initStep, hs, hp] using h1
        · have hid : item.id ≠ USER_SUBSCRIPTION_ID := by
            intro he
            have hu := hh item (by simp) he
            simp [isPlaceholder, he, hu] at hp
          simp [initStep, hs, hp, h1]
          exact fun he => hid he.symm
      · simpa [initStep, hs] using h1
    · by_cases hs : schedulable item = true
      · by_cases hp : isPlaceholder item = true
        · simpa [initStep, hs, hp] using h2
        · have hid : item.id ≠ USER_SUBSCRIPTION_ID := by
            intro he
            have hu := hh item (by simp) he
            simp [isPlaceholder, he, hu] at hp
          intro t ht
          simp [initStep, hs, hp, schedule] at ht
          rcases ht with ht | ht
          · right; rw [ht]; exact hid
          · exact h2 t ht
      · simpa [initStep, hs] using h2
    · by_cases hs : schedulable item = true
      · by_cases hp : isPlaceholder item = true
        · simpa [initStep, hs, hp] using h3
        · have hid : item.id ≠ USER_SUBSCRIPTION_ID := by
            intro he
            have hu := hh item (by simp) he
            simp [isPlaceholder, he, hu] at hp
          simp [initStep, hs, hp, schedule]
          rw [lookupPool_setPool_ne _ _ _ _ hid]
          exact h3
      · simpa [initStep, hs] using h3

/-- C6 (amended): after any sequence of register operations from the
initial state, the live-timer set holds at most one live timer per
profile id, and registering a schedulable non-placeholder profile twice
in succession leaves exactly one live timer for that id (the second
registration cancels the first).  (As stated over initAll and register
the claim fails: initAll overwrites a pool entry without cancelling the
old timer; see the counterexample.) -/
theorem register_sequences_dedup (ps : List IProfileItem) (p : IProfileItem)
    (hs : schedulable p = true) (hp : isPlaceholder p = false) :
    (∀ pid, countLiveFor (applyRegs ps initialSchedState) pid ≤ 1) ∧
    countLiveFor
      (addProfileUpdater p
        (addProfileUpdater p (applyRegs ps initialSchedState))) p.id = 1 := by
  have hinv := schedInv_applyRegs ps initialSchedState schedInv_initial
  refine ⟨fun pid => countLiveFor_le_one_of_schedInv hinv pid, ?_⟩
  exact countLiveFor_addProfileUpdater
    (schedInv_addProfileUpdater hinv p) p hs hp

/-- C6 counterexample: register followed by initAll for the same
profile id leaves two live timers for that id, because initAll installs
its timer without cancelling the one already in the pool. -/
theorem initAll_after_register_double_timer :
    countLiveFor
      ((initProfileUpdater [IProfileItem.mk "x" "remote" "https://a.example/sub" 5]
          "other" none
          (addProfileUpdater (IProfileItem.mk "x" "remote" "https://a.example/sub" 5)
            initialSchedState)).1) "x" = 2 := by
  decide

/-- C8: the sentinel placeholder profile (the user-subscription id bound
to the empty-subscription url) is never immediately refreshed and never
scheduled a timer by initAll, and is never scheduled by register, even
when its type is remote and its interval is positive: after initAll the
refreshed list omits it, no new live timer carries its id, its pool entry
is unchanged, and register on it leaves the state untouched. -/
theorem placeholder_never_scheduled
    (items : List IProfileItem) (current : String)
    (currentItem : Option IProfileItem) (s : SchedState)
    (p : IProfileItem) (s₂ : SchedState)
    (hitems : ∀ i ∈ items, i.id = USER_SUBSCRIPTION_ID →
      i.url = emptySubscriptionUrl)
    (hcur : ∀ ci, currentItem = some ci → ci.id = USER_SUBSCRIPTION_ID →
      ci.url = emptySubscriptionUrl)
    (hpid : p.id = USER_SUBSCRIPTION_ID) (hpurl : p.url = emptySubscriptionUrl) :
    USER_SUBSCRIPTION_ID ∉ (initProfileUpdater items current currentItem s).2 ∧
    (∀ t ∈ (initProfileUpdater items current currentItem s).1.live,
      t ∈ s.live ∨ t.profId ≠ USER_SUBSCRIPTION_ID) ∧
    lookupPool (initProfileUpdater items current currentItem s).1.pool
        USER_SUBSCRIPTION_ID = lookupPool s.pool USER_SUBSCRIPTION_ID ∧
    addProfileUpdater p s₂ = s₂ := by
  have hreg : addProfileUpdater p s₂ = s₂ := by
    have hpl : isPlaceholder p = true := by simp [isPlaceholder, hpid, hpurl]
    by_cases hs : schedulable p = true <;> simp [addProfileUpdater, hs, hpl]
  have hfold := initFold_placeholder s (items.filter (fun i => i.id ≠ current))
    (s, [])
    (fun i hi => hitems i (List.mem_of_mem_filter hi))
    (by simp)
    (fun t ht => Or.inl ht)
    rfl
  obtain ⟨r1, r2, r3⟩ := hfold
  simp only [ne_eq, decide_not] at r1 r2 r3
  unfold initProfileUpdater
  cases currentItem with
  | none =>
    simp only [ne_eq, decide_not]
    exact ⟨r1, r2, r3, hreg⟩
  | some ci =>
    by_cases hs : schedulable ci = true
    · by_cases hp : isPlaceholder ci = true
      · simp only [hs, hp, if_true, ne_eq, decide_not]
        exact ⟨r1, r2, r3, hreg⟩
      · have hid : ci.id ≠ USER_SUBSCRIPTION_ID := by
          intro he
          have hu := hcur ci rfl he
          simp [isPlaceholder, he, hu] at hp
        simp only [hs, hp, if_true, if_false, Bool.false_eq_true]
        refine ⟨?_, ?_, ?_, hreg⟩
        · simp [schedule]
          exact ⟨r1, fun he => hid he.symm⟩
        · intro t ht
          simp [schedule] at ht
          rcases ht with ht | ht
          · right; rw [ht]; exact hid
          · exact r2 t ht
        · simp [schedule]
          rw [lookupPool_setPool_ne _ _ _ _ hid]
          exact r3
    · simp only [hs, Bool.false_eq_true, if_false, ne_eq, decide_not]
      exact ⟨r1, r2, r3, hreg⟩

/-- C10: for every profile whose type is not remote or whose interval is
zero or absent, register leaves the scheduler state completely unchanged:
it does not cancel a previously scheduled timer for that profile id, so
editing an interval down to zero leaves the old timer live. -/
theorem register_noop_outside_guard (item : IProfileItem) (s : SchedState)
    (h : item.type ≠ "remote" ∨ item.interval = 0) :
    addProfileUpdater item s = s := by
  have hs : schedulable item = false := by
    rcases h with h | h <;> simp [schedulable, h]
  simp [addProfileUpdater, hs]

/-- C6 witness: the de-duplication theorem applied to a double register
of a concrete remote profile from the initial state. -/
theorem register_sequences_dedup_witness :
    schedulable (IProfileItem.mk "x" "remote" "https://a.example/sub" 5) = true ∧
    isPlaceholder (IProfileItem.mk "x" "remote" "https://a.example/sub" 5) = false ∧
    ((∀ pid, countLiveFor (applyRegs [] initialSchedState) pid ≤ 1) ∧
      countLiveFor
        (addProfileUpdater (IProfileItem.mk "x" "remote" "https://a.example/sub" 5)
          (addProfileUpdater (IProfileItem.mk "x" "remote" "https://a.example/sub" 5)
            (applyRegs [] initialSchedState)))
        (IProfileItem.mk "x" "remote" "https://a.example/sub" 5).id = 1) :=
  ⟨by decide, by decide, register_sequences_dedup [] _ (by decide) (by decide)⟩

/-- C8 witness: the placeholder-exclusion theorem applied to a profile
list holding exactly the placeholder with a positive interval. -/
theorem placeholder_never_scheduled_witness :
    (∀ i ∈ [IProfileItem.mk "user-subscription-meta" "remote"
        "https://example.com/empty-subscription" 5],
      i.id = USER_SUBSCRIPTION_ID → i.url = emptySubscriptionUrl) ∧
    (IProfileItem.mk "user-subscription-meta" "remote"
        "https://example.com/empty-subscription" 5).id = USER_SUBSCRIPTION_ID ∧
    (IProfileItem.mk "user-subscription-meta" "remote"
        "https://example.com/empty-subscription" 5).url = emptySubscriptionUrl ∧
    (USER_SUBSCRIPTION_ID ∉
      (initProfileUpdater
        [IProfileItem.mk "user-subscription-meta" "remote"
          "https://example.com/empty-subscription" 5] "c" none initialSchedState).2 ∧
      (∀ t ∈ (initProfileUpdater
          [IProfileItem.mk "user-subscription-meta" "remote"
            "https://example.com/empty-subscription" 5] "c" none initialSchedState).1.live,
        t ∈ initialSchedState.live ∨ t.profId ≠ USER_SUBSCRIPTION_ID) ∧
      lookupPool (initProfileUpdater
          [IProfileItem.mk "user-subscription-meta" "remote"
            "https://example.com/empty-subscription" 5] "c" none initialSchedState).1.pool
          USER_SUBSCRIPTION_ID = lookupPool initialSchedState.pool USER_SUBSCRIPTION_ID ∧
      addProfileUpdater
        (IProfileItem.mk "user-subscription-meta" "remote"
          "https://example.com/empty-subscription" 5) initialSchedState =
        initialSchedState) :=
  ⟨by decide, by decide, by decide,
    placeholder_never_scheduled _ "c" none initialSchedState _ initialSchedState
      (by decide) (fun ci h => nomatch h) (by decide) (by decide)⟩

/-- C10 witness: register of a local-type profile leaves a state with a
live timer for the same id untouched. -/
theorem register_noop_outside_guard_witness :
    ((IProfileItem.mk "x" "local" "https://a.example/sub" 5).type ≠ "remote" ∨
      (IProfileItem.mk "x" "local" "https://a.example/sub" 5).interval = 0) ∧
    addProfileUpdater (IProfileItem.mk "x" "local" "https://a.example/sub" 5)
      (SchedState.mk [("x", 0)] [Timer.mk 0 "x" 300000] 1) =
      SchedState.mk [("x", 0)] [Timer.mk 0 "x" 300000] 1 :=
  ⟨Or.inl (by decide), register_noop_outside_guard _ _ (Or.inl (by decide))⟩

/-- C2 counterexample: when the file read or the parse fails, the error
propagates to the caller instead of being replaced by the default. -/
theorem read_parse_error_propagates :
    getControledMihomoConfig true none (Except.error ()) = Except.error () := by
  rfl

theorem isOkObject_okIte (c : JVal) :
    isOkObject (Except.ok
      (if jsTypeofIsObject c then c
       else JVal.obj defaultControledMihomoConfig)) = true := by
  by_cases h : jsTypeofIsObject c = true
  · rw [if_pos h]
    simp [isOkObject, h]
  · rw [if_neg h]
    simp [isOkObject, jsTypeofIsObject]

/-- C2 (amended): whenever the persisted file is present and its content
parses without error, the read returns an object to the caller: falsy or
non-object parse results are replaced by the built-in default object.  (As
stated the claim fails: a missing file or malformed text makes readFile or
yaml.parse throw, and nothing catches it; see the counterexample.) -/
theorem read_ok_is_object (force : Bool) (cache : Option JVal) (v : JVal) :
    isOkObject (getControledMihomoConfig force cache (Except.ok v)) = true := by
  unfold getControledMihomoConfig
  by_cases hb :
      (force || (match cache with | none => true | some x => !truthy x)) = true
  · simp only [hb, if_true]
    by_cases ht : truthy v = true
    · rw [if_pos ht]
      exact isOkObject_okIte v
    · rw [if_neg ht]
      exact isOkObject_okIte (JVal.obj defaultControledMihomoConfig)
  · simp only [Bool.not_eq_true] at hb
    simp only [hb, Bool.false_eq_true, if_false]
    exact isOkObject_okIte (cache.getD JVal.null)

theorem lookupKey_dnsApply_ne (cfgA : ConfigObj) (k : String) (h : "dns" ≠ k) :
    lookupKey (dnsApply cfgA) k = lookupKey cfgA k := by
  unfold dnsApply
  cases ho : (lookupKey cfgA "dns").bind (fun d => jGet d "enable") with
  | some e => rw [lookupKey_setKey_ne _ _ _ _ h]
  | none => rw [lookupKey_setKey_ne _ _ _ _ h]

theorem lookupKey_dnsStep_ne (app : IAppConfig) (cfg : ConfigObj) (k : String)
    (h1 : "dns" ≠ k) (h2 : "hosts" ≠ k) :
    lookupKey (dnsStep app cfg) k = lookupKey cfg k := by
  unfold dnsStep
  by_cases hc : app.controlDns = true
  · rw [if_pos hc, lookupKey_dnsApply_ne _ _ h1]
    by_cases hr : dnsNeedsReset cfg = true
    · rw [if_pos hr, lookupKey_setKey_ne _ _ _ _ h1]
    · rw [if_neg hr]
  · rw [if_neg hc, lookupKey_delKey_ne _ _ _ h2, lookupKey_delKey_ne _ _ _ h1]

theorem lookupKey_snifferStep_ne (app : IAppConfig) (cfg : ConfigObj)
    (k : String) (h : "sniffer" ≠ k) :
    lookupKey (snifferStep app cfg) k = lookupKey cfg k := by
  unfold snifferStep
  by_cases hc : app.controlSniff = true
  · rw [if_pos hc]
    cases hl : lookupKey cfg "sniffer" with
    | some s =>
      show lookupKey (if truthy s = true then cfg
        else setKey cfg "sniffer" defaultSniffer) k = lookupKey cfg k
      by_cases ht : truthy s = true
      · rw [if_pos ht]
      · rw [if_neg ht, lookupKey_setKey_ne _ _ _ _ h]
    | none => rw [lookupKey_setKey_ne _ _ _ _ h]
  · rw [if_neg hc, lookupKey_delKey_ne _ _ _ h]

theorem lookupKey_hostsStep_ne (patch cfg : ConfigObj) (k : String)
    (h : "hosts" ≠ k) :
    lookupKey (hostsStep patch cfg) k = lookupKey cfg k := by
  unfold hostsStep
  cases hl : lookupKey patch "hosts" with
  | some hv =>
    show lookupKey (if truthy hv = true then setKey cfg "hosts" hv else cfg) k =
      lookupKey cfg k
    by_cases ht : truthy hv = true
    · rw [if_pos ht, lookupKey_setKey_ne _ _ _ _ h]
    · rw [if_neg ht]
  | none => rfl

theorem lookupKey_npStep_ne (patch cfg : ConfigObj) (k : String)
    (h : "dns" ≠ k) :
    lookupKey (npStep patch cfg) k = lookupKey cfg k := by
  unfold npStep
  cases hl : (lookupKey patch "dns").bind (fun d => jGet d "nameserver-policy") with
  | some np =>
    show lookupKey (if truthy np = true then
        setKey cfg "dns"
          (jSetField (orEmptyObj (lookupKey cfg "dns")) "nameserver-policy" np)
      else cfg) k = lookupKey cfg k
    by_cases ht : truthy np = true
    · rw [if_pos ht, lookupKey_setKey_ne _ _ _ _ h]
    · rw [if_neg ht]
  | none => rfl

theorem lookupKey_jDelField_ne (cfg : ConfigObj) (k sub k₁ : String)
    (h : k ≠ k₁) :
    lookupKey (jDelField cfg k sub) k₁ = lookupKey cfg k₁ := by
  unfold jDelField
  cases hl : lookupKey cfg k with
  | none => rfl
  | some v =>
    cases v with
    | obj fs => rw [lookupKey_setKey_ne _ _ _ _ h]
    | null => rfl
    | bool b => rfl
    | num n => rfl
    | str s => rfl
    | arr xs => rfl

theorem jDelField_eq_of_none (cfg : ConfigObj) (k sub : String)
    (h : lookupKey cfg k = none) : jDelField cfg k sub = cfg := by
  unfold jDelField
  rw [h]

theorem lookupKey_mergeFields_none {a b : ConfigObj} {k : String}
    (ha : lookupKey a k = none) (hb : lookupKey b k = none) :
    lookupKey (mergeFields a b) k = none := by
  rw [lookupKey_mergeFields, ha, hb]

theorem dnsNameserverPolicy_npStrip (cfg : ConfigObj) :
    dnsNameserverPolicy (npStrip cfg) = none := by
  unfold npStrip jDelField dnsNameserverPolicy
  cases hl : lookupKey cfg "dns" with
  | none => rw [hl]
  | some v =>
    cases v with
    | obj ds =>
      rw [lookupKey_setKey_self]
      show lookupKey (delKey ds "nameserver-policy") "nameserver-policy" = none
      exact lookupKey_delKey_self _ _
    | null => rw [hl]
    | bool b => rw [hl]
    | num n => rw [hl]
    | str s => rw [hl]
    | arr xs => rw [hl]

theorem dnsNameserverPolicy_tunStrip (cfg : ConfigObj) :
    dnsNameserverPolicy (tunStrip cfg) = dnsNameserverPolicy cfg := by
  unfold dnsNameserverPolicy tunStrip
  rw [lookupKey_jDelField_ne _ _ _ _ (by decide)]

/-- C7: for every starting configuration and every delta, when the app
policy has useNameserverPolicy false, after the patch the dns block of
the resulting configuration contains no nameserver-policy key, even if
the delta supplied one. -/
theorem nameserver_policy_always_stripped (app : IAppConfig) (isDarwin : Bool)
    (cfg patch : ConfigObj) (h : app.useNameserverPolicy = false) :
    dnsNameserverPolicy (patchControledMihomoConfig app isDarwin cfg patch) =
      none := by
  unfold patchControledMihomoConfig stripStep
  simp only [h, Bool.false_eq_true, if_false]
  by_cases hd : isDarwin = true
  · simp only [hd, if_true]
    rw [dnsNameserverPolicy_tunStrip]
    exact dnsNameserverPolicy_npStrip _
  · simp only [hd, Bool.false_eq_true, if_false]
    exact dnsNameserverPolicy_npStrip _

/-- C7 witness: the strip theorem applied at a concrete configuration
and delta that both carry a dns nameserver-policy block. -/
theorem nameserver_policy_always_stripped_witness :
    (IAppConfig.mk false true true).useNameserverPolicy = false ∧
    dnsNameserverPolicy
      (patchControledMihomoConfig (IAppConfig.mk false true true) false
        [("dns", .obj [("nameserver-policy",
            .obj [("+.example.com", .str "1.1.1.1")])])]
        [("dns", .obj [("nameserver-policy",
            .obj [("+.test.org", .str "8.8.8.8")])])]) = none :=
  ⟨rfl, nameserver_policy_always_stripped _ _ _ _ rfl⟩

theorem stripStep_lookup_none (app : IAppConfig) (isDarwin : Bool)
    (c : ConfigObj) (h1 : lookupKey c "dns" = none)
    (h2 : lookupKey c "hosts" = none) :
    lookupKey (stripStep app isDarwin c) "dns" = none ∧
    lookupKey (stripStep app isDarwin c) "hosts" = none := by
  unfold stripStep npStrip tunStrip
  by_cases hu : app.useNameserverPolicy = true
  · simp only [hu, if_true]
    by_cases hd : isDarwin = true
    · simp only [hd, if_true]
      rw [lookupKey_jDelField_ne _ _ _ _ (by decide),
        lookupKey_jDelField_ne _ _ _ _ (by decide)]
      exact ⟨h1, h2⟩
    · simp only [hd, Bool.false_eq_true, if_false]
      exact ⟨h1, h2⟩
  · simp only [Bool.not_eq_true] at hu
    simp only [hu, Bool.false_eq_true, if_false]
    rw [jDelField_eq_of_none _ _ _ h1]
    by_cases hd : isDarwin = true
    · simp only [hd, if_true]
      rw [lookupKey_jDelField_ne _ _ _ _ (by decide),
        lookupKey_jDelField_ne _ _ _ _ (by decide)]
      exact ⟨h1, h2⟩
    · simp only [hd, Bool.false_eq_true, if_false]
      exact ⟨h1, h2⟩

/-- C1 (amended): with dns control disabled, after a patch whose delta
carries neither a dns key nor a hosts key, the resulting configuration
contains neither a dns key nor a hosts key, for every starting
configuration.  (As stated over all deltas the claim fails: the hosts
overwrite and the delta merge re-add blocks carried by the delta; see the
counterexample.) -/
theorem dns_teardown_without_delta_blocks (app : IAppConfig) (isDarwin : Bool)
    (cfg patch : ConfigObj) (hc : app.controlDns = false)
    (hd : lookupKey patch "dns" = none)
    (hh : lookupKey patch "hosts" = none) :
    lookupKey (patchControledMihomoConfig app isDarwin cfg patch) "dns" =
      none ∧
    lookupKey (patchControledMihomoConfig app isDarwin cfg patch) "hosts" =
      none := by
  have h1d : lookupKey (dnsStep app cfg) "dns" = none := by
    unfold dnsStep
    rw [if_neg (by simp [hc]), lookupKey_delKey_ne _ _ _ (by decide),
      lookupKey_delKey_self]
  have h1h : lookupKey (dnsStep app cfg) "hosts" = none := by
    unfold dnsStep
    rw [if_neg (by simp [hc]), lookupKey_delKey_self]
  have h2d : lookupKey (snifferStep app (dnsStep app cfg)) "dns" = none := by
    rw [lookupKey_snifferStep_ne _ _ _ (by decide)]
    exact h1d
  have h2h : lookupKey (snifferStep app (dnsStep app cfg)) "hosts" = none := by
    rw [lookupKey_snifferStep_ne _ _ _ (by decide)]
    exact h1h
  have h3 : hostsStep patch (snifferStep app (dnsStep app cfg)) =
      snifferStep app (dnsStep app cfg) := by
    unfold hostsStep
    rw [hh]
  have h4 : npStep patch (snifferStep app (dnsStep app cfg)) =
      snifferStep app (dnsStep app cfg) := by
    unfold npStep
    rw [hd]
    rfl
  unfold patchControledMihomoConfig
  rw [h3, h4]
  exact stripStep_lookup_none app isDarwin _
    (lookupKey_mergeFields_none h2d hd) (lookupKey_mergeFields_none h2h hh)

/-- C1 witness: the amended teardown theorem applied at a concrete
configuration, delta and policy. -/
theorem dns_teardown_without_delta_blocks_witness :
    (IAppConfig.mk true false true).controlDns = false ∧
    lookupKey [("mode", JVal.str "rule")] "dns" = none ∧
    lookupKey [("mode", JVal.str "rule")] "hosts" = none ∧
    (lookupKey
      (patchControledMihomoConfig (IAppConfig.mk true false true) false
        [("dns", .obj [("enable", .bool true)]),
         ("hosts", .obj [("a", .str "1.1.1.1")])]
        [("mode", JVal.str "rule")]) "dns" = none ∧
     lookupKey
      (patchControledMihomoConfig (IAppConfig.mk true false true) false
        [("dns", .obj [("enable", .bool true)]),
         ("hosts", .obj [("a", .str "1.1.1.1")])]
        [("mode", JVal.str "rule")]) "hosts" = none) :=
  ⟨rfl, rfl, rfl,
    dns_teardown_without_delta_blocks _ _ _ _ rfl rfl rfl⟩

/-- C1 counterexample: with dns control disabled, a delta that carries
dns and hosts blocks leaves both present in the result, contradicting the
claim that both keys are absent after any patch. -/
theorem dns_teardown_counterexample :
    (IAppConfig.mk true false true).controlDns = false ∧
    lookupKey
      (patchControledMihomoConfig (IAppConfig.mk true false true) false []
        [("dns", .obj [("enable", .bool true)]),
         ("hosts", .obj [("b", .str "2.2.2.2")])]) "hosts" =
      some (.obj [("b", .str "2.2.2.2")]) ∧
    lookupKey
      (patchControledMihomoConfig (IAppConfig.mk true false true) false []
        [("dns", .obj [("enable", .bool true)]),
         ("hosts", .obj [("b", .str "2.2.2.2")])]) "dns" =
      some (.obj [("enable", .bool true)]) := by
  refine ⟨rfl, ?_, ?_⟩ <;>
    simp [patchControledMihomoConfig, dnsStep, dnsApply, snifferStep,
      hostsStep, npStep, stripStep, npStrip, tunStrip, jDelField,
      dnsNeedsReset, orEmptyObj, jSetField, jGet, truthy, lookupKey, setKey,
      delKey, mergeFields, mergeInto, newKeys, deepMerge, defaultSniffer,
      defaultDns, defaultDnsFields]

theorem deepMerge_obj_right (v : JVal) (bs : List (String × JVal)) :
    ∃ fs, deepMerge v (.obj bs) = .obj fs := by
  cases v with
  | obj a => exact ⟨mergeFields a bs, deepMerge_obj_obj a bs⟩
  | null => exact ⟨bs, deepMerge_eq_right (Or.inl rfl)⟩
  | bool b => exact ⟨bs, deepMerge_eq_right (Or.inl rfl)⟩
  | num n => exact ⟨bs, deepMerge_eq_right (Or.inl rfl)⟩
  | str s => exact ⟨bs, deepMerge_eq_right (Or.inl rfl)⟩
  | arr xs => exact ⟨bs, deepMerge_eq_right (Or.inl rfl)⟩

theorem dnsEnableTrue_of_lookup_eq {c₁ c₂ : ConfigObj}
    (h : lookupKey c₂ "dns" = lookupKey c₁ "dns") (hd : DnsEnableTrue c₁) :
    DnsEnableTrue c₂ := by
  obtain ⟨fs, h1, h2⟩ := hd
  exact ⟨fs, by rw [h]; exact h1, h2⟩

theorem dnsEnableTrue_dnsApply (cfgA : ConfigObj)
    (hA : (lookupKey cfgA "dns").bind (fun d => jGet d "enable") =
      some (JVal.bool true)) :
    DnsEnableTrue (dnsApply cfgA) := by
  unfold dnsApply
  rw [hA]
  show DnsEnableTrue (setKey cfgA "dns"
    (jSetField (deepMerge (orEmptyObj (lookupKey cfgA "dns")) defaultDns)
      "enable" (JVal.bool true)))
  rw [show defaultDns = JVal.obj defaultDnsFields from rfl]
  obtain ⟨fs, hfs⟩ :=
    deepMerge_obj_right (orEmptyObj (lookupKey cfgA "dns")) defaultDnsFields
  rw [hfs]
  exact ⟨setKey fs "enable" (.bool true), lookupKey_setKey_self _ _ _,
    lookupKey_setKey_self _ _ _⟩

theorem dnsEnableTrue_dnsStep (app : IAppConfig) (cfg : ConfigObj)
    (hc : app.controlDns = true)
    (he : (lookupKey cfg "dns").bind (fun d => jGet d "enable") =
      some (JVal.bool true)) :
    DnsEnableTrue (dnsStep app cfg) := by
  unfold dnsStep
  rw [if_pos hc]
  apply dnsEnableTrue_dnsApply
  by_cases hr : dnsNeedsReset cfg = true
  · rw [if_pos hr, lookupKey_setKey_self]
    rfl
  · rw [if_neg hr]
    exact he

theorem dnsEnableTrue_npStep (patch c : ConfigObj) (hd : DnsEnableTrue c) :
    DnsEnableTrue (npStep patch c) := by
  obtain ⟨fs, h1, h2⟩ := hd
  unfold npStep
  cases hl : (lookupKey patch "dns").bind (fun d => jGet d "nameserver-policy") with
  | none => exact ⟨fs, h1, h2⟩
  | some np =>
    show DnsEnableTrue (if truthy np = true then
        setKey c "dns"
          (jSetField (orEmptyObj (lookupKey c "dns")) "nameserver-policy" np)
      else c)
    by_cases ht : truthy np = true
    · rw [if_pos ht, h1]
      show DnsEnableTrue
        (setKey c "dns" (JVal.obj (setKey fs "nameserver-policy" np)))
      refine ⟨setKey fs "nameserver-policy" np, lookupKey_setKey_self _ _ _, ?_⟩
      rw [lookupKey_setKey_ne _ _ _ _ (by decide)]
      exact h2
    · rw [if_neg ht]
      exact ⟨fs, h1, h2⟩

theorem dnsEnableTrue_merge (c patch : ConfigObj) (hd : DnsEnableTrue c)
    (hp : lookupKey patch "dns" = none ∨
      ∃ pfs, lookupKey patch "dns" = some (JVal.obj pfs) ∧
        lookupKey pfs "enable" = none) :
    DnsEnableTrue (mergeFields c patch) := by
  obtain ⟨fs, h1, h2⟩ := hd
  rcases hp with hp | ⟨pfs, hp1, hp2⟩
  · refine ⟨fs, ?_, h2⟩
    rw [lookupKey_mergeFields, h1]
    show some (mergeVal patch "dns" (.obj fs)) = some (.obj fs)
    unfold mergeVal
    rw [hp]
  · refine ⟨mergeFields fs pfs, ?_, ?_⟩
    · rw [lookupKey_mergeFields, h1]
      show some (mergeVal patch "dns" (.obj fs)) =
        some (.obj (mergeFields fs pfs))
      unfold mergeVal
      rw [hp1]
      show some (deepMerge (.obj fs) (.obj pfs)) = _
      rw [deepMerge_obj_obj]
    · rw [lookupKey_mergeFields, h2]
      show some (mergeVal pfs "enable" (.bool true)) = some (.bool true)
      unfold mergeVal
      rw [hp2]

theorem dnsEnableTrue_npStrip (c : ConfigObj) (hd : DnsEnableTrue c) :
    DnsEnableTrue (npStrip c) := by
  obtain ⟨fs, h1, h2⟩ := hd
  unfold npStrip jDelField
  rw [h1]
  show DnsEnableTrue (setKey c "dns" (.obj (delKey fs "nameserver-policy")))
  refine ⟨delKey fs "nameserver-policy", lookupKey_setKey_self _ _ _, ?_⟩
  rw [lookupKey_delKey_ne _ _ _ (by decide)]
  exact h2

theorem dnsEnableTrue_tunStrip (c : ConfigObj) (hd : DnsEnableTrue c) :
    DnsEnableTrue (tunStrip c) :=
  dnsEnableTrue_of_lookup_eq (lookupKey_jDelField_ne _ _ _ _ (by decide)) hd

theorem dnsEnableTrue_stripStep (app : IAppConfig) (isDarwin : Bool)
    (c : ConfigObj) (hd : DnsEnableTrue c) :
    DnsEnableTrue (stripStep app isDarwin c) := by
  unfold stripStep
  by_cases hu : app.useNameserverPolicy = true
  · simp only [hu, if_true]
    by_cases hdw : isDarwin = true
    · simp only [hdw, if_true]
      exact dnsEnableTrue_tunStrip _ hd
    · simp only [hdw, Bool.false_eq_true, if_false]
      exact hd
  · simp only [Bool.not_eq_true] at hu
    simp only [hu, Bool.false_eq_true, if_false]
    by_cases hdw : isDarwin = true
    · simp only [hdw, if_true]
      exact dnsEnableTrue_tunStrip _ (dnsEnableTrue_npStrip _ hd)
    · simp only [hdw, Bool.false_eq_true, if_false]
      exact dnsEnableTrue_npStrip _ hd

/-- C4: for every starting configuration whose dns.enable is true and
every delta whose dns block (if any) carries no enable field, patching
with dns control enabled leaves dns.enable equal to true afterward — the
default-merge step never flips the current enable flag. -/
theorem dns_enable_preserved (app : IAppConfig) (isDarwin : Bool)
    (cfg patch : ConfigObj) (hc : app.controlDns = true)
    (he : (lookupKey cfg "dns").bind (fun d => jGet d "enable") =
      some (JVal.bool true))
    (hp : lookupKey patch "dns" = none ∨
      ∃ pfs, lookupKey patch "dns" = some (JVal.obj pfs) ∧
        lookupKey pfs "enable" = none) :
    (lookupKey (patchControledMihomoConfig app isDarwin cfg patch) "dns").bind
      (fun d => jGet d "enable") = some (JVal.bool true) := by
  have s1 := dnsEnableTrue_dnsStep app cfg hc he
  have s2 : DnsEnableTrue (snifferStep app (dnsStep app cfg)) :=
    dnsEnableTrue_of_lookup_eq (lookupKey_snifferStep_ne _ _ _ (by decide)) s1
  have s3 : DnsEnableTrue
      (hostsStep patch (snifferStep app (dnsStep app cfg))) :=
    dnsEnableTrue_of_lookup_eq (lookupKey_hostsStep_ne _ _ _ (by decide)) s2
  have s4 := dnsEnableTrue_npStep patch _ s3
  have s5 := dnsEnableTrue_merge _ patch s4 hp
  have s6 := dnsEnableTrue_stripStep app isDarwin _ s5
  obtain ⟨fs, h1, h2⟩ := s6
  unfold patchControledMihomoConfig
  rw [h1]
  show lookupKey fs "enable" = some (JVal.bool true)
  exact h2

/-- C4 witness: enable preservation at a concrete configuration with
dns.enable true and an empty delta. -/
theorem dns_enable_preserved_witness :
    (IAppConfig.mk true true true).controlDns = true ∧
    (lookupKey [("dns", JVal.obj [("enable", JVal.bool true),
        ("ipv6", JVal.bool false)])] "dns").bind (fun d => jGet d "enable") =
      some (JVal.bool true) ∧
    (lookupKey ([] : ConfigObj) "dns" = none ∨
      ∃ pfs, lookupKey ([] : ConfigObj) "dns" = some (JVal.obj pfs) ∧
        lookupKey pfs "enable" = none) ∧
    (lookupKey (patchControledMihomoConfig (IAppConfig.mk true true true) false
        [("dns", JVal.obj [("enable", JVal.bool true),
          ("ipv6", JVal.bool false)])] []) "dns").bind
      (fun d => jGet d "enable") = some (JVal.bool true) :=
  ⟨rfl, rfl, Or.inl rfl,
    dns_enable_preserved _ _ _ _ rfl rfl (Or.inl rfl)⟩

theorem lookupKey_stripStep_ne (app : IAppConfig) (isDarwin : Bool)
    (c : ConfigObj) (k : String) (h1 : "dns" ≠ k) (h2 : "tun" ≠ k) :
    lookupKey (stripStep app isDarwin c) k = lookupKey c k := by
  unfold stripStep npStrip tunStrip
  by_cases hu : app.useNameserverPolicy = true
  · simp only [hu, if_true]
    by_cases hdw : isDarwin = true
    · simp only [hdw, if_true]
      rw [lookupKey_jDelField_ne _ _ _ _ h2]
    · simp only [hdw, Bool.false_eq_true, if_false]
  · simp only [Bool.not_eq_true] at hu
    simp only [hu, Bool.false_eq_true, if_false]
    by_cases hdw : isDarwin = true
    · simp only [hdw, if_true]
      rw [lookupKey_jDelField_ne _ _ _ _ h2, lookupKey_jDelField_ne _ _ _ _ h1]
    · simp only [hdw, Bool.false_eq_true, if_false]
      rw [lookupKey_jDelField_ne _ _ _ _ h1]

/-- C5: for every starting configuration and every delta carrying a
hosts mapping (an object, with distinct keys as JavaScript objects have),
after the patch the resulting hosts value equals exactly the hosts mapping
of the delta — keys present only in the old mapping do not survive. -/
theorem hosts_replace_not_merge (app : IAppConfig) (isDarwin : Bool)
    (cfg patch : ConfigObj) (hs : List (String × JVal))
    (hh : lookupKey patch "hosts" = some (JVal.obj hs))
    (hwf : WFVal (.obj hs)) :
    lookupKey (patchControledMihomoConfig app isDarwin cfg patch) "hosts" =
      some (JVal.obj hs) := by
  have h3 : lookupKey (hostsStep patch (snifferStep app (dnsStep app cfg)))
      "hosts" = some (JVal.obj hs) := by
    unfold hostsStep
    rw [hh]
    show lookupKey (if truthy (JVal.obj hs) = true then
        setKey (snifferStep app (dnsStep app cfg)) "hosts" (JVal.obj hs)
      else snifferStep app (dnsStep app cfg)) "hosts" = some (JVal.obj hs)
    rw [if_pos (show truthy (JVal.obj hs) = true from rfl)]
    exact lookupKey_setKey_self _ _ _
  have h4 : lookupKey
      (npStep patch (hostsStep patch (snifferStep app (dnsStep app cfg))))
      "hosts" = some (JVal.obj hs) := by
    rw [lookupKey_npStep_ne _ _ _ (by decide)]
    exact h3
  have h5 : lookupKey
      (mergeFields
        (npStep patch (hostsStep patch (snifferStep app (dnsStep app cfg))))
        patch) "hosts" = some (JVal.obj hs) := by
    rw [lookupKey_mergeFields, h4]
    show some (mergeVal patch "hosts" (.obj hs)) = some (JVal.obj hs)
    unfold mergeVal
    rw [hh]
    show some (deepMerge (.obj hs) (.obj hs)) = some (JVal.obj hs)
    rw [deepMerge_self _ hwf]
  unfold patchControledMihomoConfig
  rw [lookupKey_stripStep_ne _ _ _ _ (by decide) (by decide)]
  exact h5

/-- C5 witness: from hosts a maps to 1.1.1.1 and a delta whose hosts
maps b to 2.2.2.2, the result is exactly the delta mapping. -/
theorem hosts_replace_not_merge_witness :
    lookupKey [("hosts", JVal.obj [("b", JVal.str "2.2.2.2")])] "hosts" =
      some (JVal.obj [("b", JVal.str "2.2.2.2")]) ∧
    WFVal (JVal.obj [("b", JVal.str "2.2.2.2")]) ∧
    lookupKey
      (patchControledMihomoConfig (IAppConfig.mk true true true) false
        [("hosts", JVal.obj [("a", JVal.str "1.1.1.1")])]
        [("hosts", JVal.obj [("b", JVal.str "2.2.2.2")])]) "hosts" =
      some (JVal.obj [("b", JVal.str "2.2.2.2")]) :=
  ⟨rfl,
   WFVal.obj _ (by simp) (fun p hp => by
     simp at hp
     subst hp
     exact WFVal.str _),
   hosts_replace_not_merge _ _ _ _ _ rfl
     (WFVal.obj _ (by simp) (fun p hp => by
       simp at hp
       subst hp
       exact WFVal.str _))⟩

/-- C3 counterexample: in the scenario the starting dns block lacks the
ipv6 flag, so the reset clobbers it with the default block before the
enable flag is captured; dns.enable ends up true, not false as the claim
expects. -/
theorem scenario_enable_counterexample :
    (lookupKey
      (patchControledMihomoConfig (IAppConfig.mk true true false) false
        [("dns", .obj [("enable", .bool false)]),
         ("sniffer", .obj [("enable", .bool true)])] []) "dns").bind
      (fun d => jGet d "enable") ≠ some (JVal.bool false) := by
  simp [patchControledMihomoConfig, dnsStep, dnsApply, snifferStep,
    hostsStep, npStep, stripStep, npStrip, tunStrip, jDelField,
    dnsNeedsReset, orEmptyObj, jSetField, jGet, truthy, lookupKey, setKey,
    delKey, mergeFields, mergeInto, newKeys, deepMerge, defaultSniffer,
    defaultDns, defaultDnsFields]

/-- C3 (amended): starting from dns enable false with no ipv6 flag and a
truthy sniffer, with controlDns on and controlSniff off and an empty
delta, the dns block is reset to the full default dns block, so dns is
present with the default fields and enable equal to true (the default
value), and the sniffer key is removed entirely. -/
theorem scenario_reset_to_default :
    patchControledMihomoConfig (IAppConfig.mk true true false) false
      [("dns", .obj [("enable", .bool false)]),
       ("sniffer", .obj [("enable", .bool true)])] [] =
      [("dns", defaultDns)] ∧
    (lookupKey
      (patchControledMihomoConfig (IAppConfig.mk true true false) false
        [("dns", .obj [("enable", .bool false)]),
         ("sniffer", .obj [("enable", .bool true)])] []) "dns").bind
      (fun d => jGet d "enable") = some (JVal.bool true) ∧
    lookupKey
      (patchControledMihomoConfig (IAppConfig.mk true true false) false
        [("dns", .obj [("enable", .bool false)]),
         ("sniffer", .obj [("enable", .bool true)])] []) "sniffer" = none := by
  refine ⟨?_, ?_, ?_⟩ <;>
    simp [patchControledMihomoConfig, dnsStep, dnsApply, snifferStep,
      hostsStep, npStep, stripStep, npStrip, tunStrip, jDelField,
      dnsNeedsReset, orEmptyObj, jSetField, jGet, truthy, lookupKey, setKey,
      delKey, mergeFields, mergeInto, newKeys, deepMerge, defaultSniffer,
      defaultDns, defaultDnsFields]

theorem none_of_all_ne (l : List (String × JVal)) (k : String)
    (h : ∀ p ∈ l, p.1 ≠ k) : lookupKey l k = none := by
  induction l with
  | nil => rfl
  | cons p rest ih =>
    obtain ⟨k₁, v₁⟩ := p
    have h₁ : k₁ ≠ k := h (k₁, v₁) (by simp)
    simp [lookupKey, h₁]
    exact ih (fun q hq => h q (List.mem_cons_of_mem _ hq))

theorem mem_of_mem_delKey {l : List (String × JVal)} {k : String}
    {p : String × JVal} (h : p ∈ delKey l k) : p ∈ l := by
  induction l with
  | nil => simp [delKey] at h
  | cons q rest ih =>
    obtain ⟨k₁, v₁⟩ := q
    by_cases h₁ : k₁ = k
    · simp [delKey, h₁] at h
      exact List.mem_cons_of_mem _ (ih h)
    · simp [delKey, h₁] at h
      rcases h with h | h
      · simp [h]
      · exact List.mem_cons_of_mem _ (ih h)

theorem delKey_append (u t : List (String × JVal)) (k : String) :
    delKey (u ++ t) k = delKey u k ++ delKey t k := by
  induction u with
  | nil => simp [delKey]
  | cons p rest ih =>
    obtain ⟨k₁, v₁⟩ := p
    by_cases h₁ : k₁ = k
    · simp [delKey, h₁, ih]
    · simp [delKey, h₁, ih]

theorem setKey_append_first (u : List (String × JVal)) (k : String)
    (x v : JVal) (t : List (String × JVal)) (hu : ∀ p ∈ u, p.1 ≠ k) :
    setKey (u ++ (k, x) :: t) k v = u ++ (k, v) :: t := by
  induction u with
  | nil => simp [setKey]
  | cons p rest ih =>
    obtain ⟨k₁, v₁⟩ := p
    have h₁ : k₁ ≠ k := hu (k₁, v₁) (by simp)
    simp [setKey, h₁]
    exact ih (fun q hq => hu q (List.mem_cons_of_mem _ hq))

theorem lookupKey_split {l : List (String × JVal)} {k : String} {v : JVal}
    (h : lookupKey l k = some v) :
    ∃ u t, l = u ++ (k, v) :: t ∧ ∀ p ∈ u, p.1 ≠ k := by
  induction l with
  | nil => simp [lookupKey] at h
  | cons p rest ih =>
    obtain ⟨k₁, v₁⟩ := p
    by_cases h₁ : k₁ = k
    · subst h₁
      simp [lookupKey] at h
      subst h
      exact ⟨[], rest, by simp, by simp⟩
    · simp [lookupKey, h₁] at h
      obtain ⟨u, t, he, hu⟩ := ih h
      refine ⟨(k₁, v₁) :: u, t, by simp [he], ?_⟩
      intro q hq
      rcases List.mem_cons.mp hq with hq | hq
      · simp [hq, h₁]
      · exact hu q hq

theorem mergeInto_append (a b c : List (String × JVal)) :
    mergeInto (a ++ b) c = mergeInto a c ++ mergeInto b c := by
  induction a with
  | nil => simp [mergeInto]
  | cons p rest ih =>
    obtain ⟨k, v⟩ := p
    simp [mergeInto_cons, ih]

theorem absorbed_sub {b l₁ l₂ : List (String × JVal)}
    (hsub : ∀ p ∈ l₁, p ∈ l₂) (h : Absorbed b l₂) : Absorbed b l₁ :=
  fun p hp => h p (hsub p hp)

theorem absorbed_self {bs : List (String × JVal)} (hwf : WFVal (.obj bs)) :
    Absorbed bs bs := by
  intro p hp w hw
  cases hwf with
  | obj _ hn hwfm =>
    obtain ⟨k, v⟩ := p
    rw [lookupKey_of_nodup_mem hn hp] at hw
    injection hw with hw
    rw [← hw]
    exact deepMerge_self _ (hwfm (k, v) hp)

theorem absorbed_mergeFields (a : List (String × JVal))
    {bs : List (String × JVal)} (hwf : WFVal (.obj bs)) :
    Absorbed bs (mergeFields a bs) := by
  intro p hp w hw
  rcases List.mem_append.mp hp with hp₁ | hp₂
  · obtain ⟨v₀, hm, hv⟩ := mem_mergeInto hp₁
    rw [hv]
    unfold mergeVal
    rw [hw]
    cases hwf with
    | obj _ hn hwfm =>
      exact deepMerge_absorb (hwfm _ (mem_of_lookupKey hw)) v₀
  · obtain ⟨hm, _⟩ := mem_newKeys hp₂
    exact absorbed_self hwf p hm w hw

theorem wf_defaultDnsFields : WFVal (JVal.obj defaultDnsFields) := by
  refine WFVal.obj _ (by decide) ?_
  intro p hp
  simp [defaultDnsFields] at hp
  rcases hp with h | h | h | h | h | h | h <;> (rw [h]; constructor)

theorem defaultMerge_properties (v : JVal) :
    ∃ mfs, deepMerge v defaultDns = .obj mfs ∧
      Absorbed defaultDnsFields mfs ∧
      (∀ q ∈ defaultDnsFields, (lookupKey mfs q.1).isSome) := by
  rw [show defaultDns = JVal.obj defaultDnsFields from rfl]
  cases v with
  | obj a =>
    refine ⟨mergeFields a defaultDnsFields, deepMerge_obj_obj _ _,
      absorbed_mergeFields a wf_defaultDnsFields, ?_⟩
    intro q hq
    rw [lookupKey_mergeFields]
    cases hl : lookupKey a q.1 with
    | some w => simp
    | none =>
      simp
      exact lookupKey_isSome_of_mem hq
  | null =>
    exact ⟨defaultDnsFields, deepMerge_eq_right (Or.inl rfl),
      absorbed_self wf_defaultDnsFields, fun q hq => lookupKey_isSome_of_mem hq⟩
  | bool b =>
    exact ⟨defaultDnsFields, deepMerge_eq_right (Or.inl rfl),
      absorbed_self wf_defaultDnsFields, fun q hq => lookupKey_isSome_of_mem hq⟩
  | num n =>
    exact ⟨defaultDnsFields, deepMerge_eq_right (Or.inl rfl),
      absorbed_self wf_defaultDnsFields, fun q hq => lookupKey_isSome_of_mem hq⟩
  | str s =>
    exact ⟨defaultDnsFields, deepMerge_eq_right (Or.inl rfl),
      absorbed_self wf_defaultDnsFields, fun q hq => lookupKey_isSome_of_mem hq⟩
  | arr xs =>
    exact ⟨defaultDnsFields, deepMerge_eq_right (Or.inl rfl),
      absorbed_self wf_defaultDnsFields, fun q hq => lookupKey_isSome_of_mem hq⟩

theorem goodDns_of_merge (mfs : List (String × JVal))
    (habs : Absorbed defaultDnsFields mfs)
    (hcov : ∀ q ∈ defaultDnsFields, (lookupKey mfs q.1).isSome) :
    GoodDns mfs := by
  have hen : (lookupKey mfs "enable").isSome :=
    hcov ("enable", .bool true) (by simp [defaultDnsFields])
  obtain ⟨w₀, hw₀⟩ := Option.isSome_iff_exists.mp hen
  obtain ⟨u, t, he, hu⟩ := lookupKey_split hw₀
  refine ⟨⟨u, w₀, t, he, hu, ?_, ?_⟩, hcov⟩
  · exact absorbed_sub (fun p hp => by rw [he]; exact List.mem_append_left _ hp)
      habs
  · exact absorbed_sub (fun p hp => by
      rw [he]
      exact List.mem_append_right _ (List.mem_cons_of_mem _ hp)) habs

theorem goodDns_setKey_enable (mfs : List (String × JVal)) (e : JVal)
    (habs : Absorbed defaultDnsFields mfs)
    (hcov : ∀ q ∈ defaultDnsFields, (lookupKey mfs q.1).isSome) :
    GoodDns (setKey mfs "enable" e) := by
  have hen : (lookupKey mfs "enable").isSome :=
    hcov ("enable", .bool true) (by simp [defaultDnsFields])
  obtain ⟨w₀, hw₀⟩ := Option.isSome_iff_exists.mp hen
  obtain ⟨u, t, he, hu⟩ := lookupKey_split hw₀
  have hset : setKey mfs "enable" e = u ++ ("enable", e) :: t := by
    rw [he]
    exact setKey_append_first u _ _ _ t hu
  constructor
  · refine ⟨u, e, t, hset, hu, ?_, ?_⟩
    · exact absorbed_sub (fun p hp => by rw [he]; exact List.mem_append_left _ hp)
        habs
    · exact absorbed_sub (fun p hp => by
        rw [he]
        exact List.mem_append_right _ (List.mem_cons_of_mem _ hp)) habs
  · intro q hq
    by_cases hqe : q.1 = "enable"
    · rw [hqe, lookupKey_setKey_self]
      rfl
    · rw [lookupKey_setKey_ne _ _ _ _ (fun hh => hqe hh.symm)]
      exact hcov q hq

theorem goodDns_delKey_np {E : List (String × JVal)} (hg : GoodDns E) :
    GoodDns (delKey E "nameserver-policy") := by
  obtain ⟨⟨u, e, t, he, hu, hau, hat⟩, hcov⟩ := hg
  constructor
  · refine ⟨delKey u "nameserver-policy", e, delKey t "nameserver-policy",
      ?_, ?_, ?_, ?_⟩
    · rw [he, delKey_append]
      congr 1
    · intro p hp
      exact hu p (mem_of_mem_delKey hp)
    · exact absorbed_sub (fun p hp => mem_of_mem_delKey hp) hau
    · exact absorbed_sub (fun p hp => mem_of_mem_delKey hp) hat
  · intro q hq
    have hne : "nameserver-policy" ≠ q.1 := by
      revert hq
      have : ∀ q ∈ defaultDnsFields, "nameserver-policy" ≠ q.1 := by decide
      exact fun hq => this q hq
    rw [lookupKey_delKey_ne _ _ _ hne]
    exact hcov q hq

theorem mergeFields_restore (E : List (String × JVal)) (hg : GoodDns E) :
    ∃ e, lookupKey E "enable" = some e ∧
      setKey (mergeFields E defaultDnsFields) "enable" e = E := by
  obtain ⟨⟨u, e, t, he, hu, hau, hat⟩, hcov⟩ := hg
  have hlu : lookupKey u "enable" = none := none_of_all_ne u _ hu
  have he' : lookupKey E "enable" = some e := by
    rw [he, lookupKey_append, hlu]
    simp [lookupKey]
  refine ⟨e, he', ?_⟩
  have hnew : newKeys E defaultDnsFields = [] :=
    newKeys_eq_nil (fun q hq => hcov q hq)
  rw [show mergeFields E defaultDnsFields =
      mergeInto E defaultDnsFields ++ newKeys E defaultDnsFields from rfl,
    hnew, List.append_nil, he, mergeInto_append, mergeInto_eq_self hau,
    mergeInto_cons, mergeInto_eq_self hat]
  exact setKey_append_first u _ _ _ t hu

theorem dnsApply_eq_self (y : ConfigObj) (E : List (String × JVal))
    (hy : lookupKey y "dns" = some (.obj E)) (hg : GoodDns E) :
    dnsApply y = y := by
  obtain ⟨e, he, hset⟩ := mergeFields_restore E hg
  unfold dnsApply
  rw [hy]
  have hsc : (some (JVal.obj E)).bind (fun d => jGet d "enable") = some e := he
  rw [hsc]
  show setKey y "dns"
    (jSetField (deepMerge (orEmptyObj (some (JVal.obj E))) defaultDns)
      "enable" e) = y
  show setKey y "dns"
    (jSetField (deepMerge (JVal.obj E) defaultDns) "enable" e) = y
  rw [show defaultDns = JVal.obj defaultDnsFields from rfl, deepMerge_obj_obj]
  show setKey y "dns"
    (JVal.obj (setKey (mergeFields E defaultDnsFields) "enable" e)) = y
  rw [hset]
  exact setKey_eq_self_of_lookup _ _ _ hy

theorem dnsNeedsReset_false_of_good (y : ConfigObj)
    (E : List (String × JVal)) (hy : lookupKey y "dns" = some (.obj E))
    (hcov : ∀ q ∈ defaultDnsFields, (lookupKey E q.1).isSome) :
    dnsNeedsReset y = false := by
  unfold dnsNeedsReset
  rw [hy]
  have hipv6 : (lookupKey E "ipv6").isSome :=
    hcov ("ipv6", .bool false) (by simp [defaultDnsFields])
  obtain ⟨w, hw⟩ := Option.isSome_iff_exists.mp hipv6
  simp [truthy, jGet, hw]

theorem dnsStep_id_of_good (app : IAppConfig) (y : ConfigObj)
    (E : List (String × JVal)) (hc : app.controlDns = true)
    (hy : lookupKey y "dns" = some (.obj E)) (hg : GoodDns E) :
    dnsStep app y = y := by
  unfold dnsStep
  rw [if_pos hc, if_neg (by simp [dnsNeedsReset_false_of_good y E hy hg.2])]
  exact dnsApply_eq_self y E hy hg

theorem dnsApply_good (cfgA : ConfigObj) :
    ∃ E, lookupKey (dnsApply cfgA) "dns" = some (.obj E) ∧ GoodDns E := by
  obtain ⟨mfs, hm, habs, hcov⟩ :=
    defaultMerge_properties (orEmptyObj (lookupKey cfgA "dns"))
  unfold dnsApply
  cases ho : (lookupKey cfgA "dns").bind (fun d => jGet d "enable") with
  | some e =>
    refine ⟨setKey mfs "enable" e, ?_, goodDns_setKey_enable mfs e habs hcov⟩
    rw [hm]
    show lookupKey (setKey cfgA "dns"
      (JVal.obj (setKey mfs "enable" e))) "dns" = _
    exact lookupKey_setKey_self _ _ _
  | none =>
    refine ⟨mfs, ?_, goodDns_of_merge mfs habs hcov⟩
    rw [hm]
    exact lookupKey_setKey_self _ _ _

theorem pass1_goodDns (app : IAppConfig) (isDarwin : Bool) (cfg : ConfigObj)
    (hc : app.controlDns = true) :
    ∃ E, lookupKey (stripStep app isDarwin (snifferStep app (dnsStep app cfg)))
        "dns" = some (.obj E) ∧ GoodDns E := by
  have h0 : dnsStep app cfg =
      dnsApply (if dnsNeedsReset cfg = true then setKey cfg "dns" defaultDns
        else cfg) := by
    unfold dnsStep
    rw [if_pos hc]
  obtain ⟨E₁, hE₁, hg₁⟩ := dnsApply_good
    (if dnsNeedsReset cfg = true then setKey cfg "dns" defaultDns else cfg)
  have h1 : lookupKey (snifferStep app (dnsStep app cfg)) "dns" =
      some (.obj E₁) := by
    rw [lookupKey_snifferStep_ne _ _ _ (by decide), h0]
    exact hE₁
  unfold stripStep
  by_cases hu : app.useNameserverPolicy = true
  · simp only [hu, if_true]
    by_cases hdw : isDarwin = true
    · simp only [hdw, if_true]
      refine ⟨E₁, ?_, hg₁⟩
      have h3 : lookupKey (tunStrip (snifferStep app (dnsStep app cfg)))
          "dns" = lookupKey (snifferStep app (dnsStep app cfg)) "dns" :=
        lookupKey_jDelField_ne _ _ _ _ (by decide)
      rw [h3]
      exact h1
    · simp only [hdw, Bool.false_eq_true, if_false]
      exact ⟨E₁, h1, hg₁⟩
  · simp only [Bool.not_eq_true] at hu
    simp only [hu, Bool.false_eq_true, if_false]
    have h2 : lookupKey (npStrip (snifferStep app (dnsStep app cfg))) "dns" =
        some (.obj (delKey E₁ "nameserver-policy")) := by
      unfold npStrip jDelField
      rw [h1]
      show lookupKey (setKey (snifferStep app (dnsStep app cfg)) "dns"
        (JVal.obj (delKey E₁ "nameserver-policy"))) "dns" = _
      exact lookupKey_setKey_self _ _ _
    by_cases hdw : isDarwin = true
    · simp only [hdw, if_true]
      refine ⟨delKey E₁ "nameserver-policy", ?_, goodDns_delKey_np hg₁⟩
      have h3 : lookupKey
          (tunStrip (npStrip (snifferStep app (dnsStep app cfg)))) "dns" =
          lookupKey (npStrip (snifferStep app (dnsStep app cfg))) "dns" :=
        lookupKey_jDelField_ne _ _ _ _ (by decide)
      rw [h3]
      exact h2
    · simp only [hdw, Bool.false_eq_true, if_false]
      exact ⟨delKey E₁ "nameserver-policy", h2, goodDns_delKey_np hg₁⟩

theorem pass1_dns_hosts_none (app : IAppConfig) (isDarwin : Bool)
    (cfg : ConfigObj) (hc : app.controlDns = false) :
    lookupKey (stripStep app isDarwin (snifferStep app (dnsStep app cfg)))
      "dns" = none ∧
    lookupKey (stripStep app isDarwin (snifferStep app (dnsStep app cfg)))
      "hosts" = none := by
  have h1d : lookupKey (dnsStep app cfg) "dns" = none := by
    unfold dnsStep
    rw [if_neg (by simp [hc]), lookupKey_delKey_ne _ _ _ (by decide),
      lookupKey_delKey_self]
  have h1h : lookupKey (dnsStep app cfg) "hosts" = none := by
    unfold dnsStep
    rw [if_neg (by simp [hc]), lookupKey_delKey_self]
  have h2d : lookupKey (snifferStep app (dnsStep app cfg)) "dns" = none := by
    rw [lookupKey_snifferStep_ne _ _ _ (by decide)]
    exact h1d
  have h2h : lookupKey (snifferStep app (dnsStep app cfg)) "hosts" = none := by
    rw [lookupKey_snifferStep_ne _ _ _ (by decide)]
    exact h1h
  exact stripStep_lookup_none app isDarwin _ h2d h2h

theorem dnsStep_id_nodns (app : IAppConfig) (y : ConfigObj)
    (hc : app.controlDns = false) (h1 : lookupKey y "dns" = none)
    (h2 : lookupKey y "hosts" = none) : dnsStep app y = y := by
  unfold dnsStep
  rw [if_neg (by simp [hc]), delKey_eq_self_of_none _ _ h1,
    delKey_eq_self_of_none _ _ h2]

theorem sniffer_truthy_after (app : IAppConfig) (c : ConfigObj)
    (hc : app.controlSniff = true) :
    ∃ s, lookupKey (snifferStep app c) "sniffer" = some s ∧
      truthy s = true := by
  unfold snifferStep
  rw [if_pos hc]
  cases hl : lookupKey c "sniffer" with
  | some s =>
    show ∃ s₁, lookupKey (if truthy s = true then c
      else setKey c "sniffer" defaultSniffer) "sniffer" = some s₁ ∧
      truthy s₁ = true
    by_cases ht : truthy s = true
    · rw [if_pos ht]
      exact ⟨s, hl, ht⟩
    · rw [if_neg ht]
      exact ⟨defaultSniffer, lookupKey_setKey_self _ _ _, rfl⟩
  | none => exact ⟨defaultSniffer, lookupKey_setKey_self _ _ _, rfl⟩

theorem snifferStep_id_of_truthy (app : IAppConfig) (c : ConfigObj)
    (hc : app.controlSniff = true)
    (h : ∃ s, lookupKey c "sniffer" = some s ∧ truthy s = true) :
    snifferStep app c = c := by
  obtain ⟨s, h1, h2⟩ := h
  unfold snifferStep
  rw [if_pos hc, h1]
  show (if truthy s = true then c else setKey c "sniffer" defaultSniffer) = c
  rw [if_pos h2]

theorem snifferStep_id_of_none (app : IAppConfig) (c : ConfigObj)
    (hc : app.controlSniff = false) (h : lookupKey c "sniffer" = none) :
    snifferStep app c = c := by
  unfold snifferStep
  rw [if_neg (by simp [hc])]
  exact delKey_eq_self_of_none _ _ h

theorem lookup_sniffer_none_after (app : IAppConfig) (c : ConfigObj)
    (hc : app.controlSniff = false) :
    lookupKey (snifferStep app c) "sniffer" = none := by
  unfold snifferStep
  rw [if_neg (by simp [hc])]
  exact lookupKey_delKey_self _ _

theorem snifferStep_id_after (app : IAppConfig) (isDarwin : Bool)
    (cfg : ConfigObj) :
    snifferStep app (stripStep app isDarwin (snifferStep app (dnsStep app cfg)))
      = stripStep app isDarwin (snifferStep app (dnsStep app cfg)) := by
  by_cases hcs : app.controlSniff = true
  · obtain ⟨s, hs1, hs2⟩ := sniffer_truthy_after app (dnsStep app cfg) hcs
    apply snifferStep_id_of_truthy app _ hcs
    refine ⟨s, ?_, hs2⟩
    rw [lookupKey_stripStep_ne _ _ _ _ (by decide) (by decide)]
    exact hs1
  · simp only [Bool.not_eq_true] at hcs
    apply snifferStep_id_of_none app _ hcs
    rw [lookupKey_stripStep_ne _ _ _ _ (by decide) (by decide)]
    exact lookup_sniffer_none_after app _ hcs

theorem jDelField_idem (c : ConfigObj) (k sub : String) :
    jDelField (jDelField c k sub) k sub = jDelField c k sub := by
  cases hl : lookupKey c k with
  | none =>
    rw [jDelField_eq_of_none c k sub hl, jDelField_eq_of_none c k sub hl]
  | some v =>
    cases v with
    | obj fs =>
      have h1 : jDelField c k sub = setKey c k (.obj (delKey fs sub)) := by
        unfold jDelField
        rw [hl]
      rw [h1]
      unfold jDelField
      rw [lookupKey_setKey_self]
      show setKey (setKey c k (.obj (delKey fs sub))) k
        (.obj (delKey (delKey fs sub) sub)) = setKey c k (.obj (delKey fs sub))
      rw [delKey_delKey, setKey_setKey_same]
    | null =>
      have h1 : jDelField c k sub = c := by
        unfold jDelField
        rw [hl]
      rw [h1]
      exact h1
    | bool b =>
      have h1 : jDelField c k sub = c := by
        unfold jDelField
        rw [hl]
      rw [h1]
      exact h1
    | num n =>
      have h1 : jDelField c k sub = c := by
        unfold jDelField
        rw [hl]
      rw [h1]
      exact h1
    | str s =>
      have h1 : jDelField c k sub = c := by
        unfold jDelField
        rw [hl]
      rw [h1]
      exact h1
    | arr xs =>
      have h1 : jDelField c k sub = c := by
        unfold jDelField
        rw [hl]
      rw [h1]
      exact h1

theorem jDelField_eq_self_of_substripped (c : ConfigObj) (k sub : String)
    (h : ∀ fs, lookupKey c k = some (.obj fs) → lookupKey fs sub = none) :
    jDelField c k sub = c := by
  unfold jDelField
  cases hl : lookupKey c k with
  | none => rfl
  | some v =>
    cases v with
    | obj fs =>
      show setKey c k (JVal.obj (delKey fs sub)) = c
      rw [delKey_eq_self_of_none _ _ (h fs hl)]
      exact setKey_eq_self_of_lookup _ _ _ hl
    | null => rfl
    | bool b => rfl
    | num n => rfl
    | str s => rfl
    | arr xs => rfl

theorem npStrip_substripped (c : ConfigObj) (fs : List (String × JVal))
    (h : lookupKey (npStrip c) "dns" = some (.obj fs)) :
    lookupKey fs "nameserver-policy" = none := by
  have hnp := dnsNameserverPolicy_npStrip c
  unfold dnsNameserverPolicy at hnp
  rw [h] at hnp
  exact hnp

theorem tunStrip_idem (c : ConfigObj) : tunStrip (tunStrip c) = tunStrip c :=
  jDelField_idem c "tun" "device"

theorem npStrip_idem (c : ConfigObj) : npStrip (npStrip c) = npStrip c :=
  jDelField_idem c "dns" "nameserver-policy"

theorem stripStep_idem (app : IAppConfig) (isDarwin : Bool) (c : ConfigObj) :
    stripStep app isDarwin (stripStep app isDarwin c) =
      stripStep app isDarwin c := by
  unfold stripStep
  by_cases hu : app.useNameserverPolicy = true
  · simp only [hu, if_true]
    by_cases hdw : isDarwin = true
    · simp only [hdw, if_true]
      exact tunStrip_idem c
    · simp only [hdw, Bool.false_eq_true, if_false]
  · simp only [Bool.not_eq_true] at hu
    simp only [hu, Bool.false_eq_true, if_false]
    by_cases hdw : isDarwin = true
    · simp only [hdw, if_true]
      have h1 : npStrip (tunStrip (npStrip c)) = tunStrip (npStrip c) := by
        apply jDelField_eq_self_of_substripped
        intro fs hfs
        have h2 : lookupKey (tunStrip (npStrip c)) "dns" =
            lookupKey (npStrip c) "dns" :=
          lookupKey_jDelField_ne _ _ _ _ (by decide)
        rw [h2] at hfs
        exact npStrip_substripped c fs hfs
      rw [h1]
      exact tunStrip_idem (npStrip c)
    · simp only [hdw, Bool.false_eq_true, if_false]
      exact npStrip_idem c

theorem patch_empty_form (app : IAppConfig) (isDarwin : Bool)
    (cfg : ConfigObj) :
    patchControledMihomoConfig app isDarwin cfg [] =
      stripStep app isDarwin (snifferStep app (dnsStep app cfg)) := by
  unfold patchControledMihomoConfig
  have h1 : hostsStep [] (snifferStep app (dnsStep app cfg)) =
      snifferStep app (dnsStep app cfg) := rfl
  have h2 : npStep [] (snifferStep app (dnsStep app cfg)) =
      snifferStep app (dnsStep app cfg) := rfl
  rw [h1, h2, mergeFields_nil_right]

/-- C9: applying the patch operation with an empty delta twice in a row
yields the same in-memory configuration object as applying it once, for
every starting configuration, every policy and either platform (ignoring
the regenerate and persist side effects). -/
theorem patch_empty_idempotent (app : IAppConfig) (isDarwin : Bool)
    (cfg : ConfigObj) :
    patchControledMihomoConfig app isDarwin
      (patchControledMihomoConfig app isDarwin cfg []) [] =
      patchControledMihomoConfig app isDarwin cfg [] := by
  rw [patch_empty_form, patch_empty_form]
  by_cases hc : app.controlDns = true
  · obtain ⟨E, hy, hg⟩ := pass1_goodDns app isDarwin cfg hc
    rw [dnsStep_id_of_good app _ E hc hy hg, snifferStep_id_after]
    exact stripStep_idem app isDarwin _
  · simp only [Bool.not_eq_true] at hc
    obtain ⟨h1, h2⟩ := pass1_dns_hosts_none app isDarwin cfg hc
    rw [dnsStep_id_nodns app _ hc h1 h2, snifferStep_id_after]
    exact stripStep_idem app isDarwin _
